import Mathlib

/-!
# wifi_presence: the CSI capture / publish agent (`CSI-python/main/main.c`)

A shallow embedding of the agent's C code.  The file-scope variables of
`main.c` become the fields of one record `Globals`; every C function becomes a
function from `Globals` (and its inputs) to `Globals`.  What the code does to
the outside world (log lines, publish calls, reconnect requests, lines printed)
is recorded in trace fields of `Globals`.

C strings are lists of characters (`CStr`).  `int`, `int64_t` values are `Int`;
the one place where unsigned wrap-around matters, `sizeof(payload) - len`, is
computed modulo `2 ^ 32` (`size_t` of the 32-bit targets).  Where C libraries
differ (`snprintf` handed a size above `INT_MAX`, the `%x` of `sscanf`), the
library is a parameter (`Libc`, `Scanner`).
-/

namespace WifiPresence

/-! ## Text and `printf` conversions -/

/-- A C string, without its terminating NUL; one `Char` stands for one byte. -/
abbrev CStr := List Char

/-- The conversion `%d`. -/
def fmt_d : Int → CStr
  | Int.ofNat n => Nat.toDigits 10 n
  | Int.negSucc n => '-' :: Nat.toDigits 10 (n + 1)

/-- Left padding with `'0'` up to width `w`. -/
def zpad (w : Nat) (ds : CStr) : CStr :=
  List.replicate (w - ds.length) '0' ++ ds

/-- The conversion `%0wd`: the sign counts in the width. -/
def fmt_0d (w : Nat) : Int → CStr
  | Int.ofNat n => zpad w (Nat.toDigits 10 n)
  | Int.negSucc n => '-' :: zpad (w - 1) (Nat.toDigits 10 (n + 1))

/-- The conversion `%02x` of a `uint8_t` argument (lower-case digits). -/
def fmt_02x (b : Nat) : CStr :=
  zpad 2 (Nat.toDigits 16 b)

/-- A six-byte hardware address (`uint8_t[6]`). -/
structure Mac where
  a0 : Nat
  a1 : Nat
  a2 : Nat
  a3 : Nat
  a4 : Nat
  a5 : Nat
  deriving DecidableEq, Repr

/-- `MACSTR` applied to `MAC2STR(a)`: `"%02x:%02x:%02x:%02x:%02x:%02x"`
(the two macros of `esp_mac.h`). -/
def fmt_MACSTR (a : Mac) : CStr :=
  fmt_02x a.a0 ++ ':' :: fmt_02x a.a1 ++ ':' :: fmt_02x a.a2 ++ ':' ::
    fmt_02x a.a3 ++ ':' :: fmt_02x a.a4 ++ ':' :: fmt_02x a.a5

/-! ## `snprintf` into a fixed buffer -/

/-- Which behaviour the C library has when `snprintf` is handed a size above
`INT_MAX`: ISO C writes as if the buffer were that large, POSIX libraries
(newlib among them) refuse with `EOVERFLOW`, write nothing and return `-1`. -/
structure Libc where
  eoverflow : Bool
  deriving DecidableEq, Repr

def INT_MAX : Nat := 2147483647

/-- Width of `size_t` on the target. -/
def SIZE_BITS : Nat := 32

/-- The value of an `int` converted to `size_t`. -/
def to_size_t (i : Int) : Nat :=
  (i % (2 : Int) ^ SIZE_BITS).toNat

/-- The value of an integer stored in an `unsigned long` (32 bits wide on the
target). -/
def to_unsigned_long (i : Int) : Nat :=
  (i % (2 : Int) ^ 32).toNat

/-- Store the characters `w` into `mem` from index `off` on.  The buffer keeps
its length: a character that falls outside it is not stored. -/
def writeAt : List Char → Nat → List Char → List Char
  | [], _, _ => []
  | x :: p, _, [] => x :: p
  | _ :: p, 0, c :: w => c :: writeAt p 0 w
  | x :: p, off + 1, c :: w => x :: writeAt p off (c :: w)

/-- What one `snprintf` call leaves behind: the buffer, the returned value and
whether a character was stored outside the buffer. -/
structure SnRes where
  buf : List Char
  ret : Int
  oob : Bool
  deriving DecidableEq, Repr

/-- The call `snprintf(mem + off, n, ...)` where the conversions expand to `s`:
at most `n - 1` characters of `s` and a NUL are stored, nothing when `n = 0`;
the value returned is the length of `s`, whatever was stored. -/
def snprintf (libc : Libc) (mem : List Char) (off : Int) (n : Nat) (s : CStr) : SnRes :=
  if n = 0 then ⟨mem, s.length, false⟩
  else if libc.eoverflow && decide (INT_MAX < n) then ⟨mem, -1, false⟩
  else
    let w := s.take (n - 1) ++ ['\x00']
    if off < 0 then ⟨mem, s.length, true⟩
    else ⟨writeAt mem off.toNat w, s.length, decide (mem.length < off.toNat + w.length)⟩

/-! ## Driver data -/

/-- The fields of `wifi_pkt_rx_ctrl_t` the agent reads. -/
structure RxCtrl where
  rssi : Int
  channel : Int
  rate : Int
  sig_mode : Int
  mcs : Int
  cwb : Int
  smoothing : Int
  not_sounding : Int
  aggregation : Int
  stbc : Int
  fec_coding : Int
  sgi : Int
  deriving DecidableEq, Repr

/-- The fields of `wifi_csi_info_t` the agent reads.  The pair `(buf, len)` of
the driver structure is the list `buf` of the `len` signed bytes `buf` points
to. -/
structure CsiInfo where
  rx_ctrl : RxCtrl
  mac : Mac
  buf : List Int
  deriving DecidableEq, Repr

/-- The field `len`. -/
def CsiInfo.len (c : CsiInfo) : Nat := c.buf.length

/-- A line handed to the logger.  The frequency line keeps its three arguments
instead of their `%.2f` / `%d` rendering; the rate is the exact quotient. -/
inductive LogMsg where
  | info (text : CStr)
  | frequency (rate : ℚ) (frame_type frame_subtype : Nat)
  deriving DecidableEq

/-- One call `esp_mqtt_client_publish(mqtt_client, topic, data, len, 1, 0)`:
`data` is the content of the buffer passed at the time of the call. -/
structure Publish where
  topic : CStr
  data : List Char
  len : Int
  deriving DecidableEq, Repr

/-- The file-scope and function-static variables of `main.c`, followed by the
traces of what the code did to its environment. -/
structure Globals where
  mqtt_connected : Bool
  wifi_connected : Bool
  mqtt_status : Bool
  payload : List Char
  latest_csi_info : CsiInfo
  number : Int
  wifi_mac : Mac
  wifi_ssid : CStr
  wifi_pass : CStr
  publish_topic : CStr
  /-- `PUBLISHER` is either `NULL` (`false`) or points at `publish_topic`. -/
  PUBLISHER : Bool
  tv_sec : Int
  tv_usec : Int
  currentTimestamp : Nat
  /-- `static int packet_count` of `wifi_csi_cb`. -/
  packet_count : Int
  /-- `static int64_t start_time_us` of `wifi_csi_cb`. -/
  start_time_us : Int
  /-- Lines logged, oldest first. -/
  log : List LogMsg
  /-- Publish calls made, oldest first. -/
  published : List Publish
  /-- Number of `esp_wifi_connect()` calls. -/
  connects : Nat
  /-- Lines written by `printf`. -/
  stdout : List CStr
  /-- Milliseconds spent in `vTaskDelay`. -/
  slept_ms : Nat
  /-- Set once a character has been stored outside `payload`. -/
  payload_overrun : Bool

def zero_mac : Mac := ⟨0, 0, 0, 0, 0, 0⟩

def zero_rx_ctrl : RxCtrl := ⟨0, 0, 0, 0, 0, 0, 0, 0, 0, 0, 0, 0⟩

/-- The zero-initialised `latest_csi_info`. -/
def empty_csi_info : CsiInfo := ⟨zero_rx_ctrl, zero_mac, []⟩

def PAYLOAD_SIZE : Nat := 1024

/-- The variables as their initialisers leave them. -/
def init : Globals where
  mqtt_connected := false
  wifi_connected := false
  mqtt_status := true
  payload := List.replicate PAYLOAD_SIZE '\x00'
  latest_csi_info := empty_csi_info
  number := 0
  wifi_mac := zero_mac
  wifi_ssid := []
  wifi_pass := []
  publish_topic := "ALLCLEAR/TEST".toList
  PUBLISHER := false
  tv_sec := 0
  tv_usec := 0
  currentTimestamp := 0
  packet_count := 0
  start_time_us := 0
  log := []
  published := []
  connects := 0
  stdout := []
  slept_ms := 0
  payload_overrun := false

/-! ## `csi_task` -/

/-- What `gettimeofday` and `localtime` return in one iteration. -/
structure Clock where
  tv_sec : Int
  tv_usec : Int
  tm_year : Int
  tm_mon : Int
  tm_mday : Int
  tm_hour : Int
  tm_min : Int
  tm_sec : Int
  deriving DecidableEq, Repr

/-- The local array `timestamp[64]` after its `snprintf`. -/
def fmt_timestamp (clk : Clock) : CStr :=
  let year := (clk.tm_year + 1900).tmod 100
  let month := clk.tm_mon + 1
  let milliseconds := clk.tv_usec.tdiv 1000
  (fmt_0d 2 year ++ fmt_0d 2 month ++ fmt_0d 2 clk.tm_mday ++ fmt_0d 2 clk.tm_hour ++
    fmt_0d 2 clk.tm_min ++ fmt_0d 2 clk.tm_sec ++ fmt_0d 3 milliseconds).take 63

/-- The expansion of the first format string of `csi_task`, up to and
including `"CSI values: "`. -/
def fmt_header (c : CsiInfo) (number : Int) (timestamp : CStr) : CStr :=
  "CSI data: mac=".toList ++ fmt_MACSTR c.mac ++
  ", number=".toList ++ fmt_d number ++
  ", rssi=".toList ++ fmt_d c.rx_ctrl.rssi ++
  ", channel=".toList ++ fmt_d c.rx_ctrl.channel ++
  ", rate=".toList ++ fmt_d c.rx_ctrl.rate ++
  ", sig_mode=".toList ++ fmt_d c.rx_ctrl.sig_mode ++
  ", mcs=".toList ++ fmt_d c.rx_ctrl.mcs ++
  ", bandwidth=".toList ++ fmt_d c.rx_ctrl.cwb ++
  ", smoothing=".toList ++ fmt_d c.rx_ctrl.smoothing ++
  ", not_sounding=".toList ++ fmt_d c.rx_ctrl.not_sounding ++
  ", aggregation=".toList ++ fmt_d c.rx_ctrl.aggregation ++
  ", stbc=".toList ++ fmt_d c.rx_ctrl.stbc ++
  ", fec_coding=".toList ++ fmt_d c.rx_ctrl.fec_coding ++
  ", sgi=".toList ++ fmt_d c.rx_ctrl.sgi ++
  ", leng=".toList ++ fmt_d c.len ++
  ", time=".toList ++ timestamp ++
  "\nCSI values: ".toList

/-- The buffer `payload`, the running `len` and the overrun mark while a record
is being formatted. -/
structure Fmt where
  payload : List Char
  len : Int
  overrun : Bool
  deriving DecidableEq, Repr

/-- One `len += snprintf(payload + len, sizeof(payload) - len, ...)`. -/
def fmt_append (libc : Libc) (f : Fmt) (s : CStr) : Fmt :=
  let r := snprintf libc f.payload f.len (to_size_t (PAYLOAD_SIZE - f.len)) s
  ⟨r.buf, f.len + r.ret, f.overrun || r.oob⟩

/-- The loop `for (int i = 4; i < len; ++i)` from index `i` on, at most `fuel`
rounds. -/
def csi_values_loop (libc : Libc) (buf : List Int) : Nat → Nat → Fmt → Fmt
  | 0, _, f => f
  | fuel + 1, i, f =>
    if i < buf.length then
      csi_values_loop libc buf fuel (i + 1) (fmt_append libc f (fmt_d (buf.getD i 0) ++ [' ']))
    else f

/-- The formatting pass of one iteration: `memset`, the header, the loop. -/
def csi_format (libc : Libc) (c : CsiInfo) (number : Int) (clk : Clock) : Fmt :=
  let zeroed := List.replicate PAYLOAD_SIZE '\x00'
  let r := snprintf libc zeroed 0 PAYLOAD_SIZE (fmt_header c number (fmt_timestamp clk))
  csi_values_loop libc c.buf c.len 4 ⟨r.buf, r.ret, r.oob⟩

/-- What `printf("%s\n", payload)` writes. -/
def printf_line (payload : List Char) : CStr :=
  payload.takeWhile (fun ch => ch != '\x00') ++ ['\n']

/-- One round of the `while (true)` loop of `csi_task`. -/
def csi_task_iter (libc : Libc) (g : Globals) (clk : Clock) : Globals :=
  if !g.mqtt_connected then { g with slept_ms := g.slept_ms + 1000 }
  else
    let f := csi_format libc g.latest_csi_info g.number clk
    let g1 := { g with
      payload := f.payload
      tv_sec := clk.tv_sec
      tv_usec := clk.tv_usec
      currentTimestamp := to_unsigned_long (clk.tv_sec * 1000 + clk.tv_usec.tdiv 1000)
      payload_overrun := g.payload_overrun || f.overrun }
    let g2 := if g1.mqtt_status then
        { g1 with published := g1.published ++ [⟨g1.publish_topic, g1.payload, f.len⟩] }
      else g1
    { g2 with slept_ms := g2.slept_ms + 25, stdout := g2.stdout ++ [printf_line g2.payload] }

/-! ## `wifi_csi_cb` -/

/-- The conversion of a signed byte to `uint8_t`. -/
def u8 (v : Int) : Nat := (v % 256).toNat

/-- The bit-field `hdr.frame_ctrl` read through the cast of `info->buf`: the
first two bytes, low byte first.  A byte past the end of `buf` reads as 0. -/
def frame_ctrl_of (buf : List Int) : Nat :=
  u8 (buf.getD 0 0) + 256 * u8 (buf.getD 1 0)

/-- The capture callback, called with `info` (`none` for a null pointer) when
`esp_timer_get_time()` returns `now_us`. -/
def wifi_csi_cb (g : Globals) (info : Option CsiInfo) (now_us : Int) : Globals :=
  match info with
  | none => g
  | some info =>
    if info.len = 0 then g
    else
      let frame_ctrl := frame_ctrl_of info.buf
      let frame_type := (frame_ctrl &&& 0x000C) >>> 2
      let frame_subtype := (frame_ctrl &&& 0x00F0) >>> 4
      let g1 := if g.start_time_us = 0 then { g with start_time_us := now_us } else g
      if info.mac = g1.wifi_mac then
        let g2 := { g1 with packet_count := g1.packet_count + 1 }
        let elapsed_us := now_us - g2.start_time_us
        let g3 :=
          if 1000000 ≤ elapsed_us then
            let frequency : ℚ := (g2.packet_count : ℚ) / ((elapsed_us : ℚ) / 1000000)
            { g2 with
              log := g2.log ++ [LogMsg.frequency frequency frame_type frame_subtype]
              start_time_us := now_us
              packet_count := 0 }
          else g2
        { g3 with latest_csi_info := info }
      else g1

/-! ## `wifi_event_handler` -/

/-- The `(event_base, event_id)` pairs the handler tells apart.  `got_ip`
carries what `esp_ip4addr_ntoa` renders and what `esp_wifi_sta_get_ap_info`
returns (`none` when it fails). -/
inductive WifiEvent where
  | sta_start
  | sta_disconnected
  | sta_connected
  | got_ip (ip_str : CStr) (ap_info : Option (CStr × Mac))
  | other
  deriving DecidableEq

def wifi_event_handler (g : Globals) (ev : WifiEvent) : Globals :=
  match ev with
  | .sta_start => { g with connects := g.connects + 1 }
  | .sta_disconnected =>
    { g with
      wifi_connected := false
      log := g.log ++ [LogMsg.info "Disconnected from the AP, retrying...".toList]
      connects := g.connects + 1 }
  | .sta_connected => { g with log := g.log ++ [LogMsg.info "Connected to the AP".toList] }
  | .got_ip ip_str ap_info =>
    let g1 := { g with
      log := g.log ++ [LogMsg.info ("Got IP: ".toList ++ ip_str)]
      wifi_connected := true }
    match ap_info with
    | some (ssid, bssid) =>
      { g1 with log := g1.log ++
          [LogMsg.info ("Connected to AP: ".toList ++ ssid),
           LogMsg.info ("AP MAC Address: ".toList ++ fmt_MACSTR bssid)] }
    | none => g1
  | .other => g

/-- The flag other components poll (`while (!wifi_connected)`). -/
def is_up (g : Globals) : Bool := g.wifi_connected

/-! ## `mqtt_event_handler` -/

inductive MqttEventId where
  | MQTT_EVENT_CONNECTED
  | MQTT_EVENT_DATA
  | other
  deriving DecidableEq, Repr

/-- The fields of the event the handler reads: `data` holds the `data_len`
bytes of the frame. -/
structure MqttEvent where
  event_id : MqttEventId
  data : List Char
  deriving DecidableEq, Repr

/-- One call of `strtok` with the delimiter set `"/"` on the text that starts
at the saved position: the token found (`none` for `NULL`) and the text left
after it. -/
def strtok_slash (s : CStr) : Option CStr × CStr :=
  match s.dropWhile (fun ch => ch == '/') with
  | [] => (none, [])
  | c :: r =>
    (some ((c :: r).takeWhile (fun ch => ch != '/')),
     ((c :: r).dropWhile (fun ch => ch != '/')).drop 1)

/-- The handler; `none` stands for the undefined `strcmp` against a null
`PUBLISHER`. -/
def mqtt_event_handler (g : Globals) (event : MqttEvent) : Option Globals :=
  match event.event_id with
  | .MQTT_EVENT_CONNECTED =>
    some { g with log := g.log ++ [LogMsg.info "MQTT_EVENT_CONNECTED".toList] }
  | .MQTT_EVENT_DATA =>
    let payload_mqtt := (event.data.takeWhile (fun ch => ch != '\x00')).take 127
    let t1 := strtok_slash payload_mqtt
    let t2 := strtok_slash t1.2
    let received_pub := t1.1
    let received_status := t2.1
    match received_pub with
    | none => some g
    | some pub =>
      if !g.PUBLISHER then none
      else if pub = g.publish_topic then
        if received_status = some "On".toList then
          some { g with log := g.log ++ [LogMsg.info "MQTT Status: ON".toList] }
        else if received_status = some "Off".toList then
          some { g with log := g.log ++ [LogMsg.info "MQTT Status: OFF".toList] }
        else some g
      else some g
  | .other => some g

/-! ## `parse_mac_str` and `load_config` -/

def isspace (c : Char) : Bool :=
  c == ' ' || c == '\t' || c == '\n' || c == '\x0b' || c == '\x0c' || c == '\r'

/-- The value of a hexadecimal digit: `'0'`..`'9'` are the codes 48..57,
`'a'`..`'f'` 97..102 and `'A'`..`'F'` 65..70. -/
def hexval (c : Char) : Option Nat :=
  if 48 ≤ c.toNat ∧ c.toNat ≤ 57 then some (c.toNat - 48)
  else if 97 ≤ c.toNat ∧ c.toNat ≤ 102 then some (c.toNat - 87)
  else if 65 ≤ c.toNat ∧ c.toNat ≤ 70 then some (c.toNat - 55)
  else none

/-- Read hexadecimal digits as long as there are some. -/
def scan_hex_digits : CStr → Nat → Nat × CStr
  | [], acc => (acc, [])
  | c :: s, acc =>
    match hexval c with
    | some d => scan_hex_digits s (16 * acc + d)
    | none => (acc, c :: s)

/-- Whether the text starts with `0x` or `0X`. -/
def has_0x : CStr → Bool
  | c0 :: c1 :: _ => c0 == '0' && (c1 == 'x' || c1 == 'X')
  | _ => false

/-- Where C libraries differ in `sscanf`.  A `%x` field that is `0x` with no
digit after it is read as 0 by all of them, but the BSD scanner (newlib) puts
the `x` back while glibc has used it up (`unget_x`).  `unsigned long`, the type
`strtoul` converts to, has 32 bits on the target and 64 on an LP64 host
(`long64`). -/
structure Scanner where
  unget_x : Bool
  long64 : Bool
  deriving DecidableEq, Repr

/-- The scanner of newlib on the 32-bit target. -/
def newlib_scanner : Scanner := ⟨true, false⟩

def ULONG_MAX (sc : Scanner) : Nat :=
  if sc.long64 then 2 ^ 64 - 1 else 2 ^ 32 - 1

/-- The digits of a `%x` field, after the sign: an optional `0x` / `0X`, then
the hexadecimal digits.  Without a prefix at least one digit is needed; a
prefix that no digit follows counts as the number 0. -/
def scan_x_digits (sc : Scanner) (s : CStr) : Option (Nat × CStr) :=
  if has_0x s then
    match s.drop 2 with
    | [] => some (0, if sc.unget_x then s.drop 1 else s.drop 2)
    | c :: r =>
      if (hexval c).isSome then some (scan_hex_digits (c :: r) 0)
      else some (0, if sc.unget_x then s.drop 1 else s.drop 2)
  else
    match s with
    | [] => none
    | c :: r => if (hexval c).isSome then some (scan_hex_digits (c :: r) 0) else none

/-- What `strtoul` makes of the digits' value `v` and the sign, stored in the
`unsigned int` the directive `%x` points at: a value above `ULONG_MAX` is
clamped to it, a minus sign negates in `unsigned long`. -/
def stored_x (sc : Scanner) (neg : Bool) (v : Nat) : Nat :=
  (if ULONG_MAX sc < v then ULONG_MAX sc
   else if neg then (ULONG_MAX sc + 1 - v) % (ULONG_MAX sc + 1)
   else v) % 2 ^ 32

/-- The directive `%x` of `sscanf`: white space is skipped, a sign is allowed. -/
def scan_x (sc : Scanner) (s : CStr) : Option (Nat × CStr) :=
  match s.dropWhile isspace with
  | [] => none
  | c :: r =>
    if c = '-' then (scan_x_digits sc r).map fun p => (stored_x sc true p.1, p.2)
    else if c = '+' then (scan_x_digits sc r).map fun p => (stored_x sc false p.1, p.2)
    else (scan_x_digits sc (c :: r)).map fun p => (stored_x sc false p.1, p.2)

/-- The values `sscanf(s, "%x:%x: ... ")` assigns with `k + 1` directives
left: it stops at the first directive or colon that does not match.  The number
of values is what `sscanf` returns. -/
def sscanf_x_colon (sc : Scanner) : Nat → CStr → List Nat
  | 0, s =>
    match scan_x sc s with
    | some (v, _) => [v]
    | none => []
  | k + 1, s =>
    match scan_x sc s with
    | some (v, ':' :: r) => v :: sscanf_x_colon sc k r
    | some (v, _) => [v]
    | none => []

/-- The function `parse_mac_str(s, out)`: the value returned and `out` after
the call. -/
def parse_mac_str (sc : Scanner) (s : Option CStr) (out : Mac) : Bool × Mac :=
  match s with
  | none => (false, out)
  | some s =>
    match sscanf_x_colon sc 5 s with
    | [v0, v1, v2, v3, v4, v5] =>
      (true, ⟨v0 % 256, v1 % 256, v2 % 256, v3 % 256, v4 % 256, v5 % 256⟩)
    | _ => (false, out)

/-- A parsed JSON item as `cJSON` hands it over; only the kind of an item, the
name of a member and `valuestring` matter to the loader. -/
inductive cJSON where
  | null
  | bool (b : Bool)
  | number (valueint : Int)
  | string (valuestring : CStr)
  | array (child : List cJSON)
  | object (child : List (CStr × cJSON))

/-- The library call `cJSON_GetObjectItemCaseSensitive`: the first member with
that name; nothing for an item that is not an object. -/
def cJSON_GetObjectItemCaseSensitive (root : cJSON) (name : CStr) : Option cJSON :=
  match root with
  | .object child => (child.find? fun kv => kv.1 == name).map fun kv => kv.2
  | _ => none

/-- The test `cJSON_IsString(n) && n->valuestring`: the string, if it is one. -/
def string_value (n : Option cJSON) : Option CStr :=
  match n with
  | some (.string v) => some v
  | _ => none

/-- Line 85 of `main.c`: the member `wifi_ssid`, copied with `strncpy` into
the 33-byte array. -/
def load_wifi_ssid (root : cJSON) (g : Globals) : Globals :=
  match string_value (cJSON_GetObjectItemCaseSensitive root "wifi_ssid".toList) with
  | some v => { g with wifi_ssid := v.take 32 }
  | none => g

/-- Line 86: the member `wifi_password`, into the 65-byte array. -/
def load_wifi_pass (root : cJSON) (g : Globals) : Globals :=
  match string_value (cJSON_GetObjectItemCaseSensitive root "wifi_password".toList) with
  | some v => { g with wifi_pass := v.take 64 }
  | none => g

/-- Line 87: the member `publish_topic`, into the 128-byte array. -/
def load_publish_topic (root : cJSON) (g : Globals) : Globals :=
  match string_value (cJSON_GetObjectItemCaseSensitive root "publish_topic".toList) with
  | some v => { g with publish_topic := v.take 127 }
  | none => g

/-- Line 88: the member `wifi_mac`, parsed into a local array that is copied
to `wifi_mac` when `parse_mac_str` returns true. -/
def load_wifi_mac (sc : Scanner) (root : cJSON) (g : Globals) : Globals :=
  match string_value (cJSON_GetObjectItemCaseSensitive root "wifi_mac".toList) with
  | some v =>
    let t := parse_mac_str sc (some v) zero_mac
    if t.1 then { g with wifi_mac := t.2 } else g
  | none => g

/-- The function `load_config()`: `file` is the content of `/spiffs/config.json`
(`none` when it cannot be opened), `cJSON_Parse` the library parser, `sc` the
library scanner. -/
def load_config (sc : Scanner) (cJSON_Parse : List Char → Option cJSON) (g : Globals)
    (file : Option (List Char)) : Globals :=
  match file with
  | none => g
  | some content =>
    let sz : Int := content.length
    if sz ≤ 0 ∨ sz > 4096 then g
    else
      match cJSON_Parse content with
      | none => g
      | some root =>
        load_wifi_mac sc root
          (load_publish_topic root (load_wifi_pass root (load_wifi_ssid root g)))

/-! ## Address strings, in the words of the specification -/

/-- One octet written in hexadecimal: one or two hexadecimal digits. -/
def isOctet (w : CStr) : Bool :=
  (w.length == 1 || w.length == 2) && w.all fun c => (hexval c).isSome

/-- The value an octet denotes. -/
def octetVal (w : CStr) : Nat :=
  w.foldl (fun acc c => 16 * acc + (hexval c).getD 0) 0

/-- The pieces of a text between its colons. -/
def split_colon : CStr → List CStr
  | [] => [[]]
  | c :: s =>
    if c = ':' then [] :: split_colon s
    else
      match split_colon s with
      | w :: ws => (c :: w) :: ws
      | [] => [[c]]

/-- Exactly six colon-separated hexadecimal octets, nothing after the sixth. -/
def six_octets (s : CStr) : Bool :=
  (split_colon s).length == 6 && (split_colon s).all isOctet

/-- What may follow an octet without being read as part of it: nothing, or a
character that is neither a hexadecimal digit nor the `x` of a `0x` prefix. -/
def ends_field : CStr → Bool
  | [] => true
  | c :: _ => (hexval c).isNone && c != 'x' && c != 'X'

/-- Six octets with colons between them, followed by `t`. -/
def six_fields (w0 w1 w2 w3 w4 w5 t : CStr) : CStr :=
  w0 ++ ':' :: (w1 ++ ':' :: (w2 ++ ':' :: (w3 ++ ':' :: (w4 ++ ':' :: (w5 ++ t)))))

/-- The pieces put together again, with a colon between two of them. -/
def join_colon : List CStr → CStr
  | [] => []
  | [w] => w
  | w :: v :: ws => w ++ ':' :: join_colon (v :: ws)

/-- The address whose `i`-th byte is the value of the `i`-th octet. -/
def octets_mac (ws : List CStr) : Mac :=
  ⟨octetVal (ws.getD 0 []), octetVal (ws.getD 1 []), octetVal (ws.getD 2 []),
   octetVal (ws.getD 3 []), octetVal (ws.getD 4 []), octetVal (ws.getD 5 [])⟩

/-- The subcarrier part of a record, in the words of the specification: the
signed-decimal rendering of each value, each followed by one space. -/
def csi_values_text (vs : List Int) : CStr :=
  vs.flatMap fun v => fmt_d v ++ [' ']

/-- The bytes a publish call hands to the broker: the first `len` of `data`. -/
def Publish.record (p : Publish) : List Char := p.data.take p.len.toNat

/-- The buffer when the text `pre` has been formatted into a zeroed `payload`. -/
def formatted (pre : CStr) (overrun : Bool) : Fmt :=
  ⟨pre ++ List.replicate (PAYLOAD_SIZE - pre.length) '\x00', pre.length, overrun⟩

/-- The header of the record one round of `csi_task` formats. -/
def csi_header (g : Globals) (clk : Clock) : CStr :=
  fmt_header g.latest_csi_info g.number (fmt_timestamp clk)

/-- The values `buf[4]`, ..., `buf[len-1]` of the slot, rendered. -/
def csi_values (g : Globals) : CStr :=
  csi_values_text (g.latest_csi_info.buf.drop 4)

/-- The agent after start-up with no sample captured yet: broker connected,
`PUBLISHER` set, the slot still zero. -/
def connected_no_sample : Globals :=
  { init with mqtt_connected := true, wifi_connected := true, PUBLISHER := true }

/-- A sample of 384 bytes (the length of an HT frame with STBC), every value -12. -/
def sample_384 : CsiInfo := ⟨zero_rx_ctrl, zero_mac, List.replicate 384 (-12)⟩

/-- The clock at 2026-10-30 12:34:56.789. -/
def clock_example : Clock := ⟨1793363696, 789000, 126, 9, 30, 12, 34, 56⟩

/-- The running `len` and the overrun mark after one more
`len += snprintf(payload + len, sizeof(payload) - len, ...)` of a text of
`slen` characters: what `fmt_append` does to them, without the buffer. -/
def len_step (libc : Libc) (st : Int × Bool) (slen : Nat) : Int × Bool :=
  if to_size_t (PAYLOAD_SIZE - st.1) = 0 then (st.1 + slen, st.2)
  else if libc.eoverflow && decide (INT_MAX < to_size_t (PAYLOAD_SIZE - st.1)) then
    (st.1 + -1, st.2)
  else if st.1 < 0 then (st.1 + slen, true)
  else (st.1 + slen,
    st.2 || decide (PAYLOAD_SIZE <
      st.1.toNat + (min (to_size_t (PAYLOAD_SIZE - st.1) - 1) slen + 1)))

/-- The lengths of the pieces the loop appends for the values `vs`. -/
def piece_lengths (vs : List Int) : List Nat :=
  vs.map fun v => (fmt_d v ++ [' ']).length

/-- A sample of 206 bytes whose record is exactly 1024 characters long at
`clock_example`: 200 values -12 and two values -1 after the first four bytes. -/
def sample_1024 : CsiInfo :=
  ⟨zero_rx_ctrl, zero_mac, [0, 0, 0, 0] ++ List.replicate 200 (-12) ++ [-1, -1]⟩

/-! ## The agent as a whole -/

/-- What can happen to the running agent: the driver delivers a frame, or the
publisher task runs one round of its loop. -/
inductive AgentEvent where
  | capture (info : Option CsiInfo) (now_us : Int)
  | publisher (clk : Clock)

def agent_step (libc : Libc) (g : Globals) : AgentEvent → Globals
  | .capture info now_us => wifi_csi_cb g info now_us
  | .publisher clk => csi_task_iter libc g clk

/-- Any interleaving of capture events and publisher rounds. -/
def agent_run (libc : Libc) (g : Globals) (evs : List AgentEvent) : Globals :=
  evs.foldl (agent_step libc) g

/-- The link events handled one after the other. -/
def wifi_run (g : Globals) (evs : List WifiEvent) : Globals :=
  evs.foldl wifi_event_handler g

def WifiEvent.isGotIp : WifiEvent → Bool
  | .got_ip _ _ => true
  | _ => false

def WifiEvent.isDisconnect : WifiEvent → Bool
  | .sta_disconnected => true
  | _ => false

/-- Frames handed to the capture callback one after the other, each with the
clock value at its delivery. -/
def frames_run (g : Globals) (fs : List (CsiInfo × Int)) : Globals :=
  fs.foldl (fun g f => wifi_csi_cb g (some f.1) f.2) g

/-- Frames delivered `d` microseconds apart, the first one `d` after `t`. -/
def evenly_spaced (t d : Int) : List CsiInfo → List (CsiInfo × Int)
  | [] => []
  | c :: cs => (c, t + d) :: evenly_spaced (t + d) d cs

/-- The frame type and subtype `wifi_csi_cb` logs for a frame. -/
def frame_type_of (c : CsiInfo) : Nat := (frame_ctrl_of c.buf &&& 0x000C) >>> 2

def frame_subtype_of (c : CsiInfo) : Nat := (frame_ctrl_of c.buf &&& 0x00F0) >>> 4

/-! ## Capture callback: frames from another source -/

/-- C1. A capture event whose source address differs from the filter address
`wifi_mac` leaves the shared slot `latest_csi_info` as it was and does not
increment `packet_count` (nor log a rate), whatever the state before. -/
theorem wifi_csi_cb_other_source (g : Globals) (info : CsiInfo) (now_us : Int)
    (h : info.mac ≠ g.wifi_mac) :
    (wifi_csi_cb g (some info) now_us).latest_csi_info = g.latest_csi_info ∧
    (wifi_csi_cb g (some info) now_us).packet_count = g.packet_count ∧
    (wifi_csi_cb g (some info) now_us).log = g.log := by
  unfold wifi_csi_cb
  by_cases hl : info.len = 0
  · simp [hl]
  · by_cases hs : g.start_time_us = 0 <;> simp [hl, hs, h]

/-- The filter `AA:BB:CC:DD:EE:FF`, a slot that already holds a sample, and a
ten-byte frame from `11:22:33:44:55:66`. -/
theorem wifi_csi_cb_other_source_witness :
    (⟨17, 34, 51, 68, 85, 102⟩ : Mac) ≠ ⟨170, 187, 204, 221, 238, 255⟩ ∧
    (wifi_csi_cb
      { init with
        wifi_mac := ⟨170, 187, 204, 221, 238, 255⟩
        latest_csi_info := ⟨zero_rx_ctrl, ⟨170, 187, 204, 221, 238, 255⟩, [1, 2, 3, 4, 5]⟩
        packet_count := 7 }
      (some ⟨zero_rx_ctrl, ⟨17, 34, 51, 68, 85, 102⟩, [0, 0, 0, 0, 9, 8, 7, 6, 5, 4]⟩)
      5000).latest_csi_info
      = ⟨zero_rx_ctrl, ⟨170, 187, 204, 221, 238, 255⟩, [1, 2, 3, 4, 5]⟩ ∧
    (wifi_csi_cb
      { init with
        wifi_mac := ⟨170, 187, 204, 221, 238, 255⟩
        latest_csi_info := ⟨zero_rx_ctrl, ⟨170, 187, 204, 221, 238, 255⟩, [1, 2, 3, 4, 5]⟩
        packet_count := 7 }
      (some ⟨zero_rx_ctrl, ⟨17, 34, 51, 68, 85, 102⟩, [0, 0, 0, 0, 9, 8, 7, 6, 5, 4]⟩)
      5000).packet_count = 7 :=
  have h := wifi_csi_cb_other_source
    { init with
      wifi_mac := ⟨170, 187, 204, 221, 238, 255⟩
      latest_csi_info := ⟨zero_rx_ctrl, ⟨170, 187, 204, 221, 238, 255⟩, [1, 2, 3, 4, 5]⟩
      packet_count := 7 }
    ⟨zero_rx_ctrl, ⟨17, 34, 51, 68, 85, 102⟩, [0, 0, 0, 0, 9, 8, 7, 6, 5, 4]⟩ 5000 (by decide)
  ⟨by decide, h.1, h.2.1⟩

/-! ## Publisher: nothing is published while the broker is down -/

theorem wifi_csi_cb_mqtt_connected (g : Globals) (info : Option CsiInfo) (now_us : Int) :
    (wifi_csi_cb g info now_us).mqtt_connected = g.mqtt_connected ∧
    (wifi_csi_cb g info now_us).published = g.published ∧
    (wifi_csi_cb g info now_us).payload = g.payload := by
  unfold wifi_csi_cb
  cases info with
  | none => simp
  | some info =>
    by_cases hl : info.len = 0
    · simp [hl]
    · by_cases hs : g.start_time_us = 0
      · by_cases hm : info.mac = g.wifi_mac
        · simp only [hl, hs, hm, if_true, if_false]
          split <;> exact ⟨rfl, rfl, rfl⟩
        · simp [hl, hs, hm]
      · by_cases hm : info.mac = g.wifi_mac
        · simp only [hl, hs, hm, if_true, if_false]
          split <;> exact ⟨rfl, rfl, rfl⟩
        · simp [hl, hs, hm]

theorem csi_task_iter_disconnected (libc : Libc) (g : Globals) (clk : Clock)
    (h : g.mqtt_connected = false) :
    csi_task_iter libc g clk = { g with slept_ms := g.slept_ms + 1000 } := by
  simp [csi_task_iter, h]

theorem agent_run_disconnected (libc : Libc) (evs : List AgentEvent) :
    ∀ g : Globals, g.mqtt_connected = false →
      (agent_run libc g evs).mqtt_connected = false ∧
      (agent_run libc g evs).published = g.published ∧
      (agent_run libc g evs).payload = g.payload := by
  induction evs with
  | nil => intro g h; simp [agent_run, h]
  | cons ev evs ih =>
    intro g h
    have hstep : (agent_step libc g ev).mqtt_connected = false ∧
        (agent_step libc g ev).published = g.published ∧
        (agent_step libc g ev).payload = g.payload := by
      cases ev with
      | capture info now_us =>
        have := wifi_csi_cb_mqtt_connected g info now_us
        simp [agent_step, this, h]
      | publisher clk =>
        simp [agent_step, csi_task_iter_disconnected libc g clk h, h]
    have := ih (agent_step libc g ev) hstep.1
    simp only [agent_run, List.foldl_cons] at this ⊢
    rw [this.2.1, this.2.2, hstep.2.1, hstep.2.2]
    exact ⟨this.1, rfl, rfl⟩

/-- C3. With `mqtt_connected` false, one round of the `csi_task` loop makes no
publish call and leaves `payload` untouched, whatever the shared slot holds; and
over any interleaving of capture events and publisher rounds started in such a
state the list of publish calls does not grow (zero publish calls). -/
theorem csi_task_no_publish_while_disconnected (libc : Libc) (g : Globals) (clk : Clock)
    (evs : List AgentEvent) (h : g.mqtt_connected = false) :
    (csi_task_iter libc g clk).published = g.published ∧
    (csi_task_iter libc g clk).payload = g.payload ∧
    (agent_run libc g evs).published = g.published ∧
    (agent_run libc g evs).published.length - g.published.length = 0 ∧
    (agent_run libc g evs).payload = g.payload := by
  have h1 := csi_task_iter_disconnected libc g clk h
  have h2 := agent_run_disconnected libc evs g h
  refine ⟨by rw [h1], by rw [h1], h2.2.1, by rw [h2.2.1]; simp, h2.2.2⟩

/-- A disconnected agent, two frames and two publisher rounds. -/
theorem csi_task_no_publish_while_disconnected_witness :
    init.mqtt_connected = false ∧
    (agent_run ⟨true⟩ init
      [.capture (some ⟨zero_rx_ctrl, zero_mac, [0, 0, 0, 0, 5, -6]⟩) 1000,
       .publisher ⟨1793000000, 789000, 126, 9, 30, 12, 34, 56⟩,
       .capture (some ⟨zero_rx_ctrl, zero_mac, [0, 0, 0, 0, 7, -8]⟩) 2000,
       .publisher ⟨1793000001, 789000, 126, 9, 30, 12, 34, 57⟩]).published = [] :=
  ⟨rfl, (csi_task_no_publish_while_disconnected ⟨true⟩ init
      ⟨1793000000, 789000, 126, 9, 30, 12, 34, 56⟩
      [.capture (some ⟨zero_rx_ctrl, zero_mac, [0, 0, 0, 0, 5, -6]⟩) 1000,
       .publisher ⟨1793000000, 789000, 126, 9, 30, 12, 34, 56⟩,
       .capture (some ⟨zero_rx_ctrl, zero_mac, [0, 0, 0, 0, 7, -8]⟩) 2000,
       .publisher ⟨1793000001, 789000, 126, 9, 30, 12, 34, 57⟩] rfl).2.2.1⟩

/-! ## Link supervisor -/

theorem wifi_event_handler_flag (g : Globals) (ev : WifiEvent) :
    (wifi_event_handler g ev).wifi_connected =
      (ev.isGotIp || (g.wifi_connected && !ev.isDisconnect)) := by
  cases ev with
  | got_ip ip_str ap_info =>
    cases ap_info with
    | none => simp [wifi_event_handler, WifiEvent.isGotIp]
    | some ap => simp [wifi_event_handler, WifiEvent.isGotIp]
  | sta_start => simp [wifi_event_handler, WifiEvent.isGotIp, WifiEvent.isDisconnect]
  | sta_disconnected => simp [wifi_event_handler, WifiEvent.isGotIp, WifiEvent.isDisconnect]
  | sta_connected => simp [wifi_event_handler, WifiEvent.isGotIp, WifiEvent.isDisconnect]
  | other => simp [wifi_event_handler, WifiEvent.isGotIp, WifiEvent.isDisconnect]

theorem WifiEvent.not_both (ev : WifiEvent) : ¬ (ev.isGotIp = true ∧ ev.isDisconnect = true) := by
  cases ev <;> simp [WifiEvent.isGotIp, WifiEvent.isDisconnect]

/-- The flag after a sequence of link events, from any starting state. -/
theorem wifi_run_flag (evs : List WifiEvent) :
    ∀ g : Globals, (wifi_run g evs).wifi_connected = true ↔
      ((∃ pre ev post, evs = pre ++ ev :: post ∧ ev.isGotIp = true ∧
          ∀ x ∈ post, x.isDisconnect = false) ∨
       (g.wifi_connected = true ∧ ∀ x ∈ evs, x.isDisconnect = false)) := by
  induction evs with
  | nil => intro g; simp [wifi_run]
  | cons e es ih =>
    intro g
    have hstep : wifi_run g (e :: es) = wifi_run (wifi_event_handler g e) es := rfl
    rw [hstep, ih (wifi_event_handler g e), wifi_event_handler_flag]
    constructor
    · rintro (⟨pre, ev, post, rfl, hev, hpost⟩ | ⟨hflag, hes⟩)
      · exact Or.inl ⟨e :: pre, ev, post, rfl, hev, hpost⟩
      · simp only [Bool.or_eq_true, Bool.and_eq_true, Bool.not_eq_true'] at hflag
        rcases hflag with hg | ⟨hg, hd⟩
        · exact Or.inl ⟨[], e, es, rfl, hg, hes⟩
        · refine Or.inr ⟨hg, ?_⟩
          intro x hx
          rcases List.mem_cons.mp hx with rfl | hx
          · exact hd
          · exact hes x hx
    · rintro (⟨pre, ev, post, heq, hev, hpost⟩ | ⟨hflag, hes⟩)
      · cases pre with
        | nil =>
          simp only [List.nil_append, List.cons.injEq] at heq
          obtain ⟨rfl, rfl⟩ := heq
          exact Or.inr ⟨by simp [hev], hpost⟩
        | cons p pre =>
          simp only [List.cons_append, List.cons.injEq] at heq
          obtain ⟨rfl, rfl⟩ := heq
          exact Or.inl ⟨pre, ev, post, rfl, hev, hpost⟩
      · refine Or.inr ⟨?_, fun x hx => hes x (List.mem_cons_of_mem _ hx)⟩
        simp [hflag, hes e (List.mem_cons_self _ _)]

/-- C5. After every finite sequence of link events handled by
`wifi_event_handler` from the initial state, `is_up()` (the flag
`wifi_connected`) is true exactly when an address-acquired event has occurred
and no disconnect event has occurred after it.  And starting from a connected
link, a disconnect, then any events other than address-acquired, then
address-acquired: the flag is true before, false after the disconnect and after
each event up to the acquisition, and true again after it. -/
theorem wifi_connected_reflects_link (g : Globals) (evs mid : List WifiEvent)
    (ip_str : CStr) (ap_info : Option (CStr × Mac)) :
    (is_up (wifi_run init evs) = true ↔
      ∃ pre ev post, evs = pre ++ ev :: post ∧ ev.isGotIp = true ∧
        ∀ x ∈ post, x.isDisconnect = false) ∧
    is_up { g with wifi_connected := true } = true ∧
    is_up (wifi_run { g with wifi_connected := true } [.sta_disconnected]) = false ∧
    ((∀ x ∈ mid, x.isGotIp = false) →
      ∀ k, is_up (wifi_run { g with wifi_connected := true }
        (.sta_disconnected :: mid.take k)) = false) ∧
    is_up (wifi_run { g with wifi_connected := true }
      (.sta_disconnected :: mid ++ [.got_ip ip_str ap_info])) = true := by
  refine ⟨?_, rfl, rfl, ?_, ?_⟩
  · unfold is_up
    rw [wifi_run_flag]
    simp [init]
  · intro hmid k
    unfold is_up
    rw [Bool.eq_false_iff]
    intro hup
    rw [wifi_run_flag] at hup
    rcases hup with ⟨pre, ev, post, heq, hev, hpost⟩ | ⟨_, hno⟩
    · cases pre with
      | nil =>
        simp only [List.nil_append, List.cons.injEq] at heq
        rw [← heq.1] at hev
        simp [WifiEvent.isGotIp] at hev
      | cons p pre =>
        simp only [List.cons_append, List.cons.injEq] at heq
        have hmem : ev ∈ mid := by
          have : ev ∈ mid.take k := by rw [heq.2]; simp
          exact List.mem_of_mem_take this
        rw [hmid ev hmem] at hev
        exact Bool.false_ne_true hev
    · have := hno .sta_disconnected (List.mem_cons_self _ _)
      simp [WifiEvent.isDisconnect] at this
  · unfold is_up
    rw [wifi_run_flag]
    exact Or.inl ⟨.sta_disconnected :: mid, .got_ip ip_str ap_info, [], by simp,
      rfl, by simp⟩

/-- The scenario on a concrete run: start, association, an address, a drop,
re-association, a new address. -/
theorem wifi_connected_reflects_link_witness :
    is_up (wifi_run init [.sta_start, .sta_connected, .got_ip "10.0.0.7".toList none]) = true ∧
    is_up (wifi_run init [.sta_start, .sta_connected, .got_ip "10.0.0.7".toList none,
      .sta_disconnected, .sta_connected]) = false ∧
    is_up (wifi_run { init with wifi_connected := true }
      (.sta_disconnected :: [.sta_connected] ++ [.got_ip "10.0.0.8".toList none])) = true :=
  ⟨by decide, by decide,
    (wifi_connected_reflects_link init [] [.sta_connected] "10.0.0.8".toList none).2.2.2.2⟩

/-! ## Capture callback: the frame-rate window -/

theorem wifi_csi_cb_accept_quiet (g : Globals) (info : CsiInfo) (now_us : Int)
    (hl : info.len ≠ 0) (hm : info.mac = g.wifi_mac) (hs : g.start_time_us ≠ 0)
    (he : now_us - g.start_time_us < 1000000) :
    wifi_csi_cb g (some info) now_us =
      { g with packet_count := g.packet_count + 1, latest_csi_info := info } := by
  have he' : ¬ (1000000 ≤ now_us - g.start_time_us) := not_le.mpr he
  simp [wifi_csi_cb, hl, hs, hm, he']

theorem wifi_csi_cb_accept_emit (g : Globals) (info : CsiInfo) (now_us : Int)
    (hl : info.len ≠ 0) (hm : info.mac = g.wifi_mac) (hs : g.start_time_us ≠ 0)
    (he : 1000000 ≤ now_us - g.start_time_us) :
    wifi_csi_cb g (some info) now_us =
      { g with
        log := g.log ++ [LogMsg.frequency
          (((g.packet_count + 1 : Int) : ℚ) / (((now_us - g.start_time_us : Int) : ℚ) / 1000000))
          (frame_type_of info) (frame_subtype_of info)]
        start_time_us := now_us
        packet_count := 0
        latest_csi_info := info } := by
  simp [wifi_csi_cb, hl, hs, hm, he, frame_type_of, frame_subtype_of]

theorem evenly_spaced_append (d : Int) (cs : List CsiInfo) (c : CsiInfo) :
    ∀ t : Int, evenly_spaced t d (cs ++ [c]) =
      evenly_spaced t d cs ++ [(c, t + ((cs.length : Int) + 1) * d)] := by
  induction cs with
  | nil => intro t; simp [evenly_spaced]
  | cons x xs ih =>
    intro t
    have h := ih (t + d)
    have ht : t + d + ((xs.length : Int) + 1) * d = t + (((x :: xs).length : Int) + 1) * d := by
      simp only [List.length_cons]
      push_cast
      ring
    rw [ht] at h
    show (x, t + d) :: evenly_spaced (t + d) d (xs ++ [c]) = _
    rw [h]
    rfl

/-- Accepted frames that all arrive before the window has lasted one second
only count up. -/
theorem frames_run_quiet (d : Int) (hd : 0 ≤ d) (cs : List CsiInfo) :
    ∀ (g : Globals) (t : Int), g.start_time_us ≠ 0 →
      (∀ c ∈ cs, c.len ≠ 0 ∧ c.mac = g.wifi_mac) →
      t + (cs.length : Int) * d - g.start_time_us < 1000000 →
      (frames_run g (evenly_spaced t d cs)).packet_count = g.packet_count + cs.length ∧
      (frames_run g (evenly_spaced t d cs)).start_time_us = g.start_time_us ∧
      (frames_run g (evenly_spaced t d cs)).wifi_mac = g.wifi_mac ∧
      (frames_run g (evenly_spaced t d cs)).log = g.log := by
  induction cs with
  | nil => intro g t _ _ _; simp [frames_run, evenly_spaced]
  | cons c cs ih =>
    intro g t hs hacc hlt
    have hc := hacc c (List.mem_cons_self _ _)
    have hlen : (0 : Int) ≤ (cs.length : Int) * d := mul_nonneg (Int.ofNat_nonneg _) hd
    have hnow : t + d - g.start_time_us < 1000000 := by
      simp only [List.length_cons] at hlt
      push_cast at hlt
      nlinarith
    have hstep := wifi_csi_cb_accept_quiet g c (t + d) hc.1 hc.2 hs hnow
    have hrun : frames_run g (evenly_spaced t d (c :: cs)) =
        frames_run (wifi_csi_cb g (some c) (t + d)) (evenly_spaced (t + d) d cs) := rfl
    rw [hrun, hstep]
    have := ih { g with packet_count := g.packet_count + 1, latest_csi_info := c } (t + d)
      hs (fun x hx => hacc x (List.mem_cons_of_mem _ hx))
      (by
        simp only [List.length_cons] at hlt
        push_cast at hlt
        show t + d + (cs.length : Int) * d - g.start_time_us < 1000000
        linarith)
    obtain ⟨h1, h2, h3, h4⟩ := this
    refine ⟨?_, h2, h3, h4⟩
    rw [h1]
    simp only [List.length_cons]
    push_cast
    ring

theorem wifi_csi_cb_accept_first (g : Globals) (info : CsiInfo) (now_us : Int)
    (hl : info.len ≠ 0) (hm : info.mac = g.wifi_mac) (hs : g.start_time_us = 0) :
    wifi_csi_cb g (some info) now_us =
      { g with
        start_time_us := now_us
        packet_count := g.packet_count + 1
        latest_csi_info := info } := by
  simp [wifi_csi_cb, hl, hs, hm]

/-- In a window opened at `t0`, frames `d` apart of which the last arrives one
second after `t0`: the rate logged on the last frame is the number of frames
counted in the window. -/
theorem rate_in_open_window (g : Globals) (infos : List CsiInfo) (last : CsiInfo)
    (t0 d : Int) (hstart : g.start_time_us = t0) (ht0 : t0 ≠ 0)
    (hacc : ∀ c ∈ infos ++ [last], c.len ≠ 0 ∧ c.mac = g.wifi_mac)
    (hsec : ((infos.length : Int) + 1) * d = 1000000) :
    (frames_run g (evenly_spaced t0 d (infos ++ [last]))).log =
      g.log ++ [LogMsg.frequency ((g.packet_count : ℚ) + (infos.length : ℚ) + 1)
        (frame_type_of last) (frame_subtype_of last)] ∧
    (frames_run g (evenly_spaced t0 d (infos ++ [last]))).packet_count = 0 ∧
    (frames_run g (evenly_spaced t0 d (infos ++ [last]))).start_time_us =
      t0 + ((infos.length : Int) + 1) * d ∧
    (frames_run g (evenly_spaced t0 d (infos ++ [last]))).latest_csi_info = last := by
  have hN : (0 : Int) ≤ (infos.length : Int) := Int.ofNat_nonneg _
  have hd : 0 < d := by
    by_contra hneg
    have : ((infos.length : Int) + 1) * d ≤ 0 :=
      mul_nonpos_of_nonneg_of_nonpos (by linarith) (not_lt.mp hneg)
    linarith
  have hs : g.start_time_us ≠ 0 := by rw [hstart]; exact ht0
  have hq := frames_run_quiet d hd.le infos g t0 hs
    (fun c hc => hacc c (List.mem_append_left _ hc))
    (by rw [hstart]; nlinarith)
  obtain ⟨h1, h2, h3, h4⟩ := hq
  have hl := hacc last (by simp)
  have hrun : frames_run g (evenly_spaced t0 d (infos ++ [last])) =
      wifi_csi_cb (frames_run g (evenly_spaced t0 d infos)) (some last)
        (t0 + ((infos.length : Int) + 1) * d) := by
    rw [evenly_spaced_append]
    simp [frames_run, List.foldl_append]
  have helapsed : t0 + ((infos.length : Int) + 1) * d -
      (frames_run g (evenly_spaced t0 d infos)).start_time_us = 1000000 := by
    rw [h2, hstart, hsec]; ring
  have hemit := wifi_csi_cb_accept_emit (frames_run g (evenly_spaced t0 d infos)) last
    (t0 + ((infos.length : Int) + 1) * d) hl.1 (by rw [h3]; exact hl.2) (by rw [h2]; exact hs)
    (by rw [helapsed])
  rw [hrun, hemit]
  refine ⟨?_, rfl, rfl, rfl⟩
  simp only [h4, helapsed, h1]
  congr 2
  push_cast
  norm_num

/-- C7. `N = infos.length + 1 ≥ 1` accepted frames are delivered `d`
microseconds apart, starting from a fresh window (`packet_count = 0`), evenly
across exactly one second: either the window was opened at `t0` and the frames
come at `t0 + d`, ..., `t0 + N * d = t0 + 1 s`; or no window is open yet
(`start_time_us = 0`), the first frame opens it and the last frame comes one
second after the first.  Then one rate is logged, on the last frame; it is
`packet_count / (elapsed_us / 1000000) = N` as an exact rational, and right
after it `packet_count` is 0 and the window starts at the current time. -/
theorem rate_of_evenly_spaced_second (g : Globals) (infos : List CsiInfo) (last : CsiInfo)
    (t0 d : Int)
    (hfresh : g.packet_count = 0)
    (hacc : ∀ c ∈ infos ++ [last], c.len ≠ 0 ∧ c.mac = g.wifi_mac)
    (hwin : (g.start_time_us = t0 ∧ t0 ≠ 0 ∧ ((infos.length : Int) + 1) * d = 1000000) ∨
      (g.start_time_us = 0 ∧ t0 + d ≠ 0 ∧ (infos.length : Int) * d = 1000000)) :
    (frames_run g (evenly_spaced t0 d (infos ++ [last]))).log =
      g.log ++ [LogMsg.frequency ((infos.length : ℚ) + 1)
        (frame_type_of last) (frame_subtype_of last)] ∧
    (frames_run g (evenly_spaced t0 d (infos ++ [last]))).packet_count = 0 ∧
    (frames_run g (evenly_spaced t0 d (infos ++ [last]))).start_time_us =
      t0 + ((infos.length : Int) + 1) * d ∧
    (frames_run g (evenly_spaced t0 d (infos ++ [last]))).latest_csi_info = last := by
  rcases hwin with ⟨hstart, ht0, hsec⟩ | ⟨hstart, ht1, hsec⟩
  · have h := rate_in_open_window g infos last t0 d hstart ht0 hacc hsec
    rw [hfresh] at h
    simpa using h
  · cases infos with
    | nil => simp at hsec
    | cons c cs =>
      have hc := hacc c (by simp)
      have hfirst := wifi_csi_cb_accept_first g c (t0 + d) hc.1 hc.2 hstart
      have hrun : frames_run g (evenly_spaced t0 d (c :: cs ++ [last])) =
          frames_run (wifi_csi_cb g (some c) (t0 + d))
            (evenly_spaced (t0 + d) d (cs ++ [last])) := rfl
      have hsec' : ((cs.length : Int) + 1) * d = 1000000 := by
        simp only [List.length_cons] at hsec
        push_cast at hsec
        exact hsec
      have h := rate_in_open_window
        { g with start_time_us := t0 + d, packet_count := g.packet_count + 1,
                 latest_csi_info := c }
        cs last (t0 + d) d rfl ht1
        (fun x hx => hacc x (by
          simp only [List.cons_append, List.mem_cons]
          exact Or.inr hx))
        hsec'
      rw [hrun, hfirst]
      obtain ⟨h1, h2, h3, h4⟩ := h
      refine ⟨?_, h2, ?_, h4⟩
      · rw [h1]
        simp only [hfresh, List.length_cons]
        congr 2
        push_cast
        congr 1
        ring
      · rw [h3]
        simp only [List.length_cons]
        push_cast
        ring_nf

/-- Four frames 250 ms apart in a window opened at 5 s, the last at 6 s; and
from the boot state, five frames 250 ms apart, the first at 2 s, the last at
3 s. -/
theorem rate_of_evenly_spaced_second_witness :
    (frames_run { init with start_time_us := 5000000 }
      (evenly_spaced 5000000 250000
        ([⟨zero_rx_ctrl, zero_mac, [8, 0, 1, 2]⟩, ⟨zero_rx_ctrl, zero_mac, [8, 0, 3, 4]⟩,
          ⟨zero_rx_ctrl, zero_mac, [8, 0, 5, 6]⟩] ++ [⟨zero_rx_ctrl, zero_mac, [8, 0, 7, 8]⟩]))).log
      = [LogMsg.frequency 4 2 0] ∧
    (frames_run { init with start_time_us := 5000000 }
      (evenly_spaced 5000000 250000
        ([⟨zero_rx_ctrl, zero_mac, [8, 0, 1, 2]⟩, ⟨zero_rx_ctrl, zero_mac, [8, 0, 3, 4]⟩,
          ⟨zero_rx_ctrl, zero_mac, [8, 0, 5, 6]⟩] ++
          [⟨zero_rx_ctrl, zero_mac, [8, 0, 7, 8]⟩]))).packet_count = 0 ∧
    (frames_run init
      (evenly_spaced 1750000 250000
        ([⟨zero_rx_ctrl, zero_mac, [8, 0, 1, 2]⟩, ⟨zero_rx_ctrl, zero_mac, [8, 0, 3, 4]⟩,
          ⟨zero_rx_ctrl, zero_mac, [8, 0, 5, 6]⟩, ⟨zero_rx_ctrl, zero_mac, [8, 0, 7, 8]⟩] ++
          [⟨zero_rx_ctrl, zero_mac, [8, 0, 9, 9]⟩]))).log
      = [LogMsg.frequency 5 2 0] := by
  have h := rate_of_evenly_spaced_second { init with start_time_us := 5000000 }
    [⟨zero_rx_ctrl, zero_mac, [8, 0, 1, 2]⟩, ⟨zero_rx_ctrl, zero_mac, [8, 0, 3, 4]⟩,
      ⟨zero_rx_ctrl, zero_mac, [8, 0, 5, 6]⟩] ⟨zero_rx_ctrl, zero_mac, [8, 0, 7, 8]⟩
    5000000 250000 rfl (by decide) (Or.inl ⟨rfl, by decide, by decide⟩)
  have hb := rate_of_evenly_spaced_second init
    [⟨zero_rx_ctrl, zero_mac, [8, 0, 1, 2]⟩, ⟨zero_rx_ctrl, zero_mac, [8, 0, 3, 4]⟩,
      ⟨zero_rx_ctrl, zero_mac, [8, 0, 5, 6]⟩, ⟨zero_rx_ctrl, zero_mac, [8, 0, 7, 8]⟩]
    ⟨zero_rx_ctrl, zero_mac, [8, 0, 9, 9]⟩
    1750000 250000 rfl (by decide) (Or.inr ⟨rfl, by decide, by decide⟩)
  refine ⟨?_, h.2.1, ?_⟩
  · rw [h.1]
    simp only [init, List.nil_append, List.length_cons, List.length_nil, List.cons.injEq,
      and_true, LogMsg.frequency.injEq]
    refine ⟨by norm_num, by decide, by decide⟩
  · rw [hb.1]
    simp only [init, List.nil_append, List.length_cons, List.length_nil, List.cons.injEq,
      and_true, LogMsg.frequency.injEq]
    refine ⟨by norm_num, by decide, by decide⟩

/-! ## `parse_mac_str` -/

theorem hexval_range (c : Char) (d : Nat) (h : hexval c = some d) :
    d < 16 ∧ ((48 ≤ c.toNat ∧ c.toNat ≤ 57) ∨ (97 ≤ c.toNat ∧ c.toNat ≤ 102) ∨
      (65 ≤ c.toNat ∧ c.toNat ≤ 70)) := by
  unfold hexval at h
  split_ifs at h with h1 h2 h3
  · simp only [Option.some.injEq] at h; omega
  · simp only [Option.some.injEq] at h; omega
  · simp only [Option.some.injEq] at h; omega

theorem hexval_not_special (c : Char) (d : Nat) (h : hexval c = some d) :
    isspace c = false ∧ c ≠ '-' ∧ c ≠ '+' ∧ c ≠ 'x' ∧ c ≠ 'X' ∧ c ≠ ':' := by
  have hr := (hexval_range c d h).2
  refine ⟨?_, ?_, ?_, ?_, ?_, ?_⟩
  · rw [Bool.eq_false_iff]
    intro hsp
    simp only [isspace, Bool.or_eq_true, beq_iff_eq] at hsp
    rcases hsp with ((((rfl | rfl) | rfl) | rfl) | rfl) | rfl <;> revert hr <;> decide
  all_goals (rintro rfl; revert hr; decide)

theorem scan_hex_digits_stop (t : CStr) (acc : Nat) (ht : ends_field t = true) :
    scan_hex_digits t acc = (acc, t) := by
  cases t with
  | nil => rfl
  | cons c r =>
    simp only [ends_field, Bool.and_eq_true, Option.isNone_iff_eq_none] at ht
    simp [scan_hex_digits, ht.1.1]

theorem has_0x_digit (c : Char) (t : CStr) (ht : ends_field t = true) :
    has_0x (c :: t) = false := by
  cases t with
  | nil => rfl
  | cons x r =>
    simp only [ends_field, Bool.and_eq_true, bne_iff_ne, ne_eq] at ht
    simp [has_0x, ht.1.2, ht.2]

theorem has_0x_digits (c1 c2 : Char) (d2 : Nat) (t : CStr) (h : hexval c2 = some d2) :
    has_0x (c1 :: c2 :: t) = false := by
  have := hexval_not_special c2 d2 h
  simp [has_0x, this.2.2.2.1, this.2.2.2.2.1]

theorem stored_x_small (sc : Scanner) (v : Nat) (h : v < 256) : stored_x sc false v = v := by
  unfold stored_x ULONG_MAX
  cases sc.long64
  · have h1 : ¬ (2 ^ 32 - 1 < v) := by omega
    simp only [Bool.false_eq_true, if_false, h1]
    omega
  · have h1 : ¬ (2 ^ 64 - 1 < v) := by omega
    simp only [if_true, h1, if_false, Bool.false_eq_true]
    omega

/-- The directive `%x` reads an octet whole and stops right after it. -/
theorem scan_x_octet (sc : Scanner) (w t : CStr) (hw : isOctet w = true)
    (ht : ends_field t = true) :
    scan_x sc (w ++ t) = some (octetVal w, t) ∧ octetVal w < 256 := by
  rcases w with _ | ⟨c1, _ | ⟨c2, _ | ⟨c3, w⟩⟩⟩
  · simp [isOctet] at hw
  · simp only [isOctet, List.length_singleton, beq_self_eq_true, Bool.true_or, List.all_cons,
      List.all_nil, Bool.and_true, Bool.true_and, Option.isSome_iff_exists] at hw
    obtain ⟨d1, h1⟩ := hw
    have hs := hexval_not_special c1 d1 h1
    have hr := (hexval_range c1 d1 h1).1
    have h0 := has_0x_digit c1 t ht
    have hstop := scan_hex_digits_stop t d1 ht
    have hmod : stored_x sc false d1 = d1 := stored_x_small sc d1 (by omega)
    refine ⟨?_, by simp [octetVal, h1]; omega⟩
    simp [scan_x, List.dropWhile, hs.1, hs.2.1, hs.2.2.1, scan_x_digits, h0, h1,
      scan_hex_digits, hstop, octetVal, hmod]
  · simp only [isOctet, List.length_cons, List.length_nil, List.all_cons, List.all_nil,
      Bool.and_true, Bool.and_eq_true, Option.isSome_iff_exists] at hw
    obtain ⟨-, ⟨d1, h1⟩, ⟨d2, h2⟩⟩ := hw
    have hs := hexval_not_special c1 d1 h1
    have hr1 := (hexval_range c1 d1 h1).1
    have hr2 := (hexval_range c2 d2 h2).1
    have h0 := has_0x_digits c1 c2 d2 t h2
    have hstop := scan_hex_digits_stop t (16 * d1 + d2) ht
    have hmod : stored_x sc false (16 * d1 + d2) = 16 * d1 + d2 :=
      stored_x_small sc _ (by omega)
    refine ⟨?_, by simp [octetVal, h1, h2]; omega⟩
    simp [scan_x, List.dropWhile, hs.1, hs.2.1, hs.2.2.1, scan_x_digits, h0, h1, h2,
      scan_hex_digits, hstop, octetVal, hmod]
  · simp [isOctet] at hw

theorem ends_field_colon (t : CStr) : ends_field (':' :: t) = true := by
  simp only [ends_field, Bool.and_eq_true, Option.isNone_iff_eq_none, bne_iff_ne, ne_eq]
  exact ⟨⟨by decide, by decide⟩, by decide⟩

theorem parse_mac_str_six_fields (sc : Scanner) (w0 w1 w2 w3 w4 w5 t : CStr) (out : Mac)
    (h0 : isOctet w0 = true) (h1 : isOctet w1 = true) (h2 : isOctet w2 = true)
    (h3 : isOctet w3 = true) (h4 : isOctet w4 = true) (h5 : isOctet w5 = true)
    (ht : ends_field t = true) :
    parse_mac_str sc (some (six_fields w0 w1 w2 w3 w4 w5 t)) out =
      (true, ⟨octetVal w0, octetVal w1, octetVal w2, octetVal w3, octetVal w4, octetVal w5⟩) := by
  have e5 := scan_x_octet sc w5 t h5 ht
  have e4 := scan_x_octet sc w4 (':' :: (w5 ++ t)) h4 (ends_field_colon _)
  have e3 := scan_x_octet sc w3 (':' :: (w4 ++ ':' :: (w5 ++ t))) h3 (ends_field_colon _)
  have e2 := scan_x_octet sc w2 (':' :: (w3 ++ ':' :: (w4 ++ ':' :: (w5 ++ t)))) h2
    (ends_field_colon _)
  have e1 := scan_x_octet sc w1 (':' :: (w2 ++ ':' :: (w3 ++ ':' :: (w4 ++ ':' :: (w5 ++ t)))))
    h1 (ends_field_colon _)
  have e0 := scan_x_octet sc w0
    (':' :: (w1 ++ ':' :: (w2 ++ ':' :: (w3 ++ ':' :: (w4 ++ ':' :: (w5 ++ t)))))) h0
    (ends_field_colon _)
  simp only [parse_mac_str, six_fields, sscanf_x_colon, e0.1, e1.1, e2.1, e3.1, e4.1, e5.1,
    Nat.mod_eq_of_lt e0.2, Nat.mod_eq_of_lt e1.2, Nat.mod_eq_of_lt e2.2,
    Nat.mod_eq_of_lt e3.2, Nat.mod_eq_of_lt e4.2, Nat.mod_eq_of_lt e5.2]

/-- A call that returns `false` has not written to `out`. -/
theorem parse_mac_str_false (sc : Scanner) (s : Option CStr) (out : Mac)
    (h : (parse_mac_str sc s out).1 = false) : parse_mac_str sc s out = (false, out) := by
  unfold parse_mac_str at h ⊢
  cases s with
  | none => rfl
  | some s =>
    simp only at h ⊢
    split
    · rename_i heq
      rw [heq] at h
      simp at h
    · rfl

/-- Whether the call succeeds does not depend on what `out` held. -/
theorem parse_mac_str_fst (sc : Scanner) (s : Option CStr) (out out2 : Mac) :
    (parse_mac_str sc s out).1 = (parse_mac_str sc s out2).1 := by
  unfold parse_mac_str
  cases s with
  | none => rfl
  | some s =>
    simp only
    split <;> rfl

theorem split_colon_ne_nil (s : CStr) : split_colon s ≠ [] := by
  cases s with
  | nil => simp [split_colon]
  | cons c s =>
    simp only [split_colon]
    split_ifs
    · simp
    · split <;> simp

theorem join_split_colon (s : CStr) : join_colon (split_colon s) = s := by
  induction s with
  | nil => rfl
  | cons c s ih =>
    simp only [split_colon]
    split_ifs with hc
    · cases hsp : split_colon s with
      | nil => exact absurd hsp (split_colon_ne_nil s)
      | cons w ws =>
        rw [hsp] at ih
        simp [join_colon, ih, hc]
    · cases hsp : split_colon s with
      | nil => exact absurd hsp (split_colon_ne_nil s)
      | cons w ws =>
        rw [hsp] at ih
        cases ws with
        | nil => simpa [join_colon] using ih
        | cons v ws =>
          simp only [join_colon] at ih ⊢
          rw [← ih]
          rfl

/-- A text that is exactly six octets is read as those octets, also when
something that cannot continue the sixth octet follows it. -/
theorem parse_mac_str_six_octets (sc : Scanner) (s t : CStr) (out : Mac)
    (hs : six_octets s = true) (ht : ends_field t = true) :
    parse_mac_str sc (some (s ++ t)) out = (true, octets_mac (split_colon s)) := by
  have hj := join_split_colon s
  simp only [six_octets, Bool.and_eq_true, beq_iff_eq] at hs
  obtain ⟨hlen, hall⟩ := hs
  rcases hsp : split_colon s with _ | ⟨w0, _ | ⟨w1, _ | ⟨w2, _ | ⟨w3, _ | ⟨w4, _ | ⟨w5, _ | ⟨w6, ws⟩⟩⟩⟩⟩⟩⟩ <;>
    rw [hsp] at hlen <;> simp only [List.length_cons, List.length_nil] at hlen <;>
    try omega
  rw [hsp] at hall hj
  simp only [List.all_cons, List.all_nil, Bool.and_true, Bool.and_eq_true] at hall
  obtain ⟨h0, h1, h2, h3, h4, h5⟩ := hall
  have hst : s ++ t = six_fields w0 w1 w2 w3 w4 w5 t := by
    rw [← hj]
    simp [join_colon, six_fields]
  rw [hst, parse_mac_str_six_fields sc w0 w1 w2 w3 w4 w5 t out h0 h1 h2 h3 h4 h5 ht]
  rfl

/-! ## `parse_mac_str`: what a string that is read must look like -/

theorem split_colon_length (s : CStr) : (split_colon s).length = s.count ':' + 1 := by
  induction s with
  | nil => rfl
  | cons c s ih =>
    simp only [split_colon]
    split_ifs with hc
    · rw [hc, List.length_cons, ih, List.count_cons_self]
    · have hcount : (c :: s).count ':' = s.count ':' := List.count_cons_of_ne (Ne.symm hc) s
      rw [hcount, ← ih]
      cases hsp : split_colon s with
      | nil => exact absurd hsp (split_colon_ne_nil s)
      | cons w ws => rfl

theorem load_wifi_ssid_fields (root : cJSON) (g : Globals) :
    (load_wifi_ssid root g).wifi_ssid =
      ((string_value (cJSON_GetObjectItemCaseSensitive root "wifi_ssid".toList)).map
        (List.take 32)).getD g.wifi_ssid ∧
    (load_wifi_ssid root g).wifi_pass = g.wifi_pass ∧
    (load_wifi_ssid root g).publish_topic = g.publish_topic ∧
    (load_wifi_ssid root g).wifi_mac = g.wifi_mac := by
  unfold load_wifi_ssid
  cases string_value (cJSON_GetObjectItemCaseSensitive root "wifi_ssid".toList) <;>
    exact ⟨rfl, rfl, rfl, rfl⟩

theorem load_wifi_pass_fields (root : cJSON) (g : Globals) :
    (load_wifi_pass root g).wifi_ssid = g.wifi_ssid ∧
    (load_wifi_pass root g).wifi_pass =
      ((string_value (cJSON_GetObjectItemCaseSensitive root "wifi_password".toList)).map
        (List.take 64)).getD g.wifi_pass ∧
    (load_wifi_pass root g).publish_topic = g.publish_topic ∧
    (load_wifi_pass root g).wifi_mac = g.wifi_mac := by
  unfold load_wifi_pass
  cases string_value (cJSON_GetObjectItemCaseSensitive root "wifi_password".toList) <;>
    exact ⟨rfl, rfl, rfl, rfl⟩

theorem load_publish_topic_fields (root : cJSON) (g : Globals) :
    (load_publish_topic root g).wifi_ssid = g.wifi_ssid ∧
    (load_publish_topic root g).wifi_pass = g.wifi_pass ∧
    (load_publish_topic root g).publish_topic =
      ((string_value (cJSON_GetObjectItemCaseSensitive root "publish_topic".toList)).map
        (List.take 127)).getD g.publish_topic ∧
    (load_publish_topic root g).wifi_mac = g.wifi_mac := by
  unfold load_publish_topic
  cases string_value (cJSON_GetObjectItemCaseSensitive root "publish_topic".toList) <;>
    exact ⟨rfl, rfl, rfl, rfl⟩

theorem load_wifi_mac_fields (sc : Scanner) (root : cJSON) (g : Globals) :
    (load_wifi_mac sc root g).wifi_ssid = g.wifi_ssid ∧
    (load_wifi_mac sc root g).wifi_pass = g.wifi_pass ∧
    (load_wifi_mac sc root g).publish_topic = g.publish_topic ∧
    (load_wifi_mac sc root g).wifi_mac =
      ((string_value (cJSON_GetObjectItemCaseSensitive root "wifi_mac".toList)).map
        fun v => (parse_mac_str sc (some v) g.wifi_mac).2).getD g.wifi_mac := by
  unfold load_wifi_mac
  cases string_value (cJSON_GetObjectItemCaseSensitive root "wifi_mac".toList) with
  | none => exact ⟨rfl, rfl, rfl, rfl⟩
  | some v =>
    simp only [Option.map_some', Option.getD_some]
    by_cases hv : (parse_mac_str sc (some v) zero_mac).1 = true
    · have hsnd : (parse_mac_str sc (some v) g.wifi_mac).2 = (parse_mac_str sc (some v) zero_mac).2 := by
        unfold parse_mac_str at hv ⊢
        simp only at hv ⊢
        split
        · rfl
        · simp at hv
      rw [if_pos hv, hsnd]
      exact ⟨rfl, rfl, rfl, rfl⟩
    · have hv1 : (parse_mac_str sc (some v) zero_mac).1 = false := by
        simpa using hv
      have hv2 : (parse_mac_str sc (some v) g.wifi_mac).1 = false := by
        rw [parse_mac_str_fst sc (some v) g.wifi_mac zero_mac]; exact hv1
      rw [if_neg hv, parse_mac_str_false sc (some v) g.wifi_mac hv2]
      exact ⟨rfl, rfl, rfl, rfl⟩

/-- What `load_config` leaves in the four settings once the file has been
read and parsed: each one is decided by its own member alone. -/
theorem load_config_parsed (sc : Scanner) (cJSON_Parse : List Char → Option cJSON) (g : Globals)
    (content : List Char) (root : cJSON)
    (hsz1 : 1 ≤ content.length) (hsz2 : content.length ≤ 4096)
    (hparse : cJSON_Parse content = some root) :
    (load_config sc cJSON_Parse g (some content)).wifi_ssid =
      ((string_value (cJSON_GetObjectItemCaseSensitive root "wifi_ssid".toList)).map
        (List.take 32)).getD g.wifi_ssid ∧
    (load_config sc cJSON_Parse g (some content)).wifi_pass =
      ((string_value (cJSON_GetObjectItemCaseSensitive root "wifi_password".toList)).map
        (List.take 64)).getD g.wifi_pass ∧
    (load_config sc cJSON_Parse g (some content)).publish_topic =
      ((string_value (cJSON_GetObjectItemCaseSensitive root "publish_topic".toList)).map
        (List.take 127)).getD g.publish_topic ∧
    (load_config sc cJSON_Parse g (some content)).wifi_mac =
      ((string_value (cJSON_GetObjectItemCaseSensitive root "wifi_mac".toList)).map
        fun v => (parse_mac_str sc (some v) g.wifi_mac).2).getD g.wifi_mac := by
  have hsz : ¬ (((content.length : Nat) : Int) ≤ 0 ∨ ((content.length : Nat) : Int) > 4096) := by
    omega
  have hload : load_config sc cJSON_Parse g (some content) =
      load_wifi_mac sc root (load_publish_topic root (load_wifi_pass root (load_wifi_ssid root g))) := by
    simp only [load_config, hsz, if_false, hparse]
  have h1 := load_wifi_ssid_fields root g
  have h2 := load_wifi_pass_fields root (load_wifi_ssid root g)
  have h3 := load_publish_topic_fields root (load_wifi_pass root (load_wifi_ssid root g))
  have h4 := load_wifi_mac_fields sc root
    (load_publish_topic root (load_wifi_pass root (load_wifi_ssid root g)))
  rw [hload]
  refine ⟨?_, ?_, ?_, ?_⟩
  · rw [h4.1, h3.1, h2.1, h1.1]
  · rw [h4.2.1, h3.2.1, h2.2.1, h1.2.1]
  · rw [h4.2.2.1, h3.2.2.1, h2.2.2.1, h1.2.2.1]
  · rw [h4.2.2.2, h3.2.2.2, h2.2.2.2, h1.2.2.2]

/-- C8. For every configuration file of 1 to 4096 bytes that parses, each of
the four settings is decided by its own member alone: a member that is omitted
or is not a string leaves that setting at its built-in default (`""`, `""`,
`"ALLCLEAR/TEST"`, `00:00:00:00:00:00`), a supplied string sets it (clamped to
32 / 64 / 127 characters, so unchanged within those limits; the address as
`parse_mac_str` reads it, so byte for byte for six octets), whatever the other
members are. -/
theorem load_config_field_independence (sc : Scanner)
    (cJSON_Parse : List Char → Option cJSON)
    (content : List Char) (root : cJSON)
    (hsz1 : 1 ≤ content.length) (hsz2 : content.length ≤ 4096)
    (hparse : cJSON_Parse content = some root) :
    ((load_config sc cJSON_Parse init (some content)).wifi_ssid =
        ((string_value (cJSON_GetObjectItemCaseSensitive root "wifi_ssid".toList)).map
          (List.take 32)).getD [] ∧
      (load_config sc cJSON_Parse init (some content)).wifi_pass =
        ((string_value (cJSON_GetObjectItemCaseSensitive root "wifi_password".toList)).map
          (List.take 64)).getD [] ∧
      (load_config sc cJSON_Parse init (some content)).publish_topic =
        ((string_value (cJSON_GetObjectItemCaseSensitive root "publish_topic".toList)).map
          (List.take 127)).getD "ALLCLEAR/TEST".toList ∧
      (load_config sc cJSON_Parse init (some content)).wifi_mac =
        ((string_value (cJSON_GetObjectItemCaseSensitive root "wifi_mac".toList)).map
          fun v => (parse_mac_str sc (some v) zero_mac).2).getD zero_mac) ∧
    ((∀ v, string_value (cJSON_GetObjectItemCaseSensitive root "wifi_ssid".toList) = some v →
        v.length ≤ 32 → (load_config sc cJSON_Parse init (some content)).wifi_ssid = v) ∧
      (∀ v, string_value (cJSON_GetObjectItemCaseSensitive root "wifi_password".toList) = some v →
        v.length ≤ 64 → (load_config sc cJSON_Parse init (some content)).wifi_pass = v) ∧
      (∀ v, string_value (cJSON_GetObjectItemCaseSensitive root "publish_topic".toList) = some v →
        v.length ≤ 127 → (load_config sc cJSON_Parse init (some content)).publish_topic = v) ∧
      (∀ v, string_value (cJSON_GetObjectItemCaseSensitive root "wifi_mac".toList) = some v →
        six_octets v = true →
        (load_config sc cJSON_Parse init (some content)).wifi_mac = octets_mac (split_colon v))) := by
  have h := load_config_parsed sc cJSON_Parse init content root hsz1 hsz2 hparse
  refine ⟨h, ?_, ?_, ?_, ?_⟩
  · intro v hv hlen
    rw [h.1, hv]
    simp [List.take_of_length_le hlen]
  · intro v hv hlen
    rw [h.2.1, hv]
    simp [List.take_of_length_le hlen]
  · intro v hv hlen
    rw [h.2.2.1, hv]
    simp [List.take_of_length_le hlen]
  · intro v hv hsix
    rw [h.2.2.2, hv]
    have := parse_mac_str_six_octets sc v [] init.wifi_mac hsix rfl
    rw [List.append_nil] at this
    show (parse_mac_str sc (some v) init.wifi_mac).2 = _
    rw [this]

/-- A file that gives the network name and the address, leaves the password out
and gives a number where the topic should be. -/
theorem load_config_field_independence_witness :
    (load_config newlib_scanner
      (fun _ => some (.object [("wifi_ssid".toList, .string "lab".toList),
        ("publish_topic".toList, .number 3),
        ("wifi_mac".toList, .string "aa:bb:cc:dd:ee:ff".toList)])) init
      (some "\x7b\"wifi_ssid\":\"lab\",\"publish_topic\":3,\"wifi_mac\":\"aa:bb:cc:dd:ee:ff\"\x7d".toList)).wifi_ssid
      = "lab".toList ∧
    (load_config newlib_scanner
      (fun _ => some (.object [("wifi_ssid".toList, .string "lab".toList),
        ("publish_topic".toList, .number 3),
        ("wifi_mac".toList, .string "aa:bb:cc:dd:ee:ff".toList)])) init
      (some "\x7b\"wifi_ssid\":\"lab\",\"publish_topic\":3,\"wifi_mac\":\"aa:bb:cc:dd:ee:ff\"\x7d".toList)).wifi_pass
      = [] ∧
    (load_config newlib_scanner
      (fun _ => some (.object [("wifi_ssid".toList, .string "lab".toList),
        ("publish_topic".toList, .number 3),
        ("wifi_mac".toList, .string "aa:bb:cc:dd:ee:ff".toList)])) init
      (some "\x7b\"wifi_ssid\":\"lab\",\"publish_topic\":3,\"wifi_mac\":\"aa:bb:cc:dd:ee:ff\"\x7d".toList)).publish_topic
      = "ALLCLEAR/TEST".toList ∧
    (load_config newlib_scanner
      (fun _ => some (.object [("wifi_ssid".toList, .string "lab".toList),
        ("publish_topic".toList, .number 3),
        ("wifi_mac".toList, .string "aa:bb:cc:dd:ee:ff".toList)])) init
      (some "\x7b\"wifi_ssid\":\"lab\",\"publish_topic\":3,\"wifi_mac\":\"aa:bb:cc:dd:ee:ff\"\x7d".toList)).wifi_mac
      = ⟨170, 187, 204, 221, 238, 255⟩ := by
  have h := (load_config_field_independence newlib_scanner
    (fun _ => some (.object [("wifi_ssid".toList, .string "lab".toList),
      ("publish_topic".toList, .number 3),
      ("wifi_mac".toList, .string "aa:bb:cc:dd:ee:ff".toList)]))
    "\x7b\"wifi_ssid\":\"lab\",\"publish_topic\":3,\"wifi_mac\":\"aa:bb:cc:dd:ee:ff\"\x7d".toList
    (.object [("wifi_ssid".toList, .string "lab".toList),
      ("publish_topic".toList, .number 3),
      ("wifi_mac".toList, .string "aa:bb:cc:dd:ee:ff".toList)])
    (by decide) (by decide) rfl).1
  refine ⟨?_, ?_, ?_, ?_⟩
  · rw [h.1]; decide
  · rw [h.2.1]; decide
  · rw [h.2.2.1]; decide
  · rw [h.2.2.2]; decide

/-! ## `parse_mac_str`: what is accepted and what is not -/

/-- A token cut out by `strtok` holds no delimiter. -/
theorem strtok_slash_token (s tok : CStr) (h : (strtok_slash s).1 = some tok) : '/' ∉ tok := by
  unfold strtok_slash at h
  split at h
  · simp at h
  · simp only [Option.some.injEq] at h
    intro hmem
    rw [← h] at hmem
    have := List.mem_takeWhile_imp hmem
    simp at this

/-- With a channel name that contains `/`, no data frame is ever acted on. -/
theorem mqtt_event_handler_slash_channel (g : Globals) (data : List Char)
    (hp : g.PUBLISHER = true) (hslash : '/' ∈ g.publish_topic) :
    mqtt_event_handler g ⟨.MQTT_EVENT_DATA, data⟩ = some g := by
  simp only [mqtt_event_handler, hp]
  split
  · rfl
  · rename_i pub hpub
    have hno := strtok_slash_token _ pub hpub
    have hne : pub ≠ g.publish_topic := by
      intro heq
      rw [heq] at hno
      exact hno hslash
    simp [hne]

/-- C4 at the default channel: with `PUBLISHER` pointing at the built-in
`"ALLCLEAR/TEST"`, the frame `"ALLCLEAR/TEST/On"` is cut into the tokens
`ALLCLEAR` and `TEST`, the first is compared with the whole channel name and
nothing is logged; the same for `"ALLCLEAR/TEST/Off"`.  (`"OTHER/On"` is
ignored, as specified.) -/
theorem mqtt_event_handler_default_channel_silent :
    (strtok_slash "ALLCLEAR/TEST/On".toList).1 = some "ALLCLEAR".toList ∧
    (mqtt_event_handler { init with PUBLISHER := true }
      ⟨.MQTT_EVENT_DATA, "ALLCLEAR/TEST/On".toList⟩).map (fun g => g.log) = some [] ∧
    (mqtt_event_handler { init with PUBLISHER := true }
      ⟨.MQTT_EVENT_DATA, "ALLCLEAR/TEST/Off".toList⟩).map (fun g => g.log) = some [] ∧
    (mqtt_event_handler { init with PUBLISHER := true }
      ⟨.MQTT_EVENT_DATA, "OTHER/On".toList⟩).map (fun g => g.log) = some [] := by
  have h : ∀ data, (mqtt_event_handler { init with PUBLISHER := true }
      ⟨.MQTT_EVENT_DATA, data⟩).map (fun g => g.log) = some [] := by
    intro data
    rw [mqtt_event_handler_slash_channel _ data rfl (by decide)]
    rfl
  exact ⟨by decide, h _, h _, h _⟩

theorem takeWhile_append_stop (p : Char → Bool) (a : CStr) (c : Char) (r : CStr)
    (ha : ∀ x ∈ a, p x = true) (hc : p c = false) :
    (a ++ c :: r).takeWhile p = a ∧ (a ++ c :: r).dropWhile p = c :: r := by
  induction a with
  | nil => simp [List.takeWhile, List.dropWhile, hc]
  | cons x xs ih =>
    have hx := ha x (List.mem_cons_self _ _)
    have := ih (fun y hy => ha y (List.mem_cons_of_mem _ hy))
    simp [List.takeWhile, List.dropWhile, hx, this]

/-- Where the channel name holds no `/`, the handler does what is specified:
`<channel>/On` logs the ON line, `<channel>/Off` the OFF line. -/
theorem mqtt_event_handler_plain_channel (g : Globals)
    (hp : g.PUBLISHER = true) (hne : g.publish_topic ≠ [])
    (hslash : '/' ∉ g.publish_topic) (hnul : '\x00' ∉ g.publish_topic)
    (hlen : g.publish_topic.length + 4 ≤ 127) :
    mqtt_event_handler g ⟨.MQTT_EVENT_DATA, g.publish_topic ++ "/On".toList⟩ =
      some { g with log := g.log ++ [LogMsg.info "MQTT Status: ON".toList] } ∧
    mqtt_event_handler g ⟨.MQTT_EVENT_DATA, g.publish_topic ++ "/Off".toList⟩ =
      some { g with log := g.log ++ [LogMsg.info "MQTT Status: OFF".toList] } := by
  obtain ⟨c, r, hcr⟩ := List.exists_cons_of_ne_nil hne
  have hc : c ≠ '/' := by
    intro h; apply hslash; rw [hcr, h]; exact List.mem_cons_self _ _
  have hall : ∀ x ∈ g.publish_topic, (x != '/') = true := by
    intro x hx
    simp only [bne_iff_ne, ne_eq]
    intro h; apply hslash; rw [← h]; exact hx
  have hnn : ∀ x ∈ g.publish_topic, (x != '\x00') = true := by
    intro x hx
    simp only [bne_iff_ne, ne_eq]
    intro h; apply hnul; rw [← h]; exact hx
  have key : ∀ cmd : CStr, cmd.length ≤ 3 → (∀ x ∈ cmd, (x != '\x00') = true) →
      (∀ x ∈ cmd, (x != '/') = true) → cmd ≠ [] →
      (strtok_slash (((g.publish_topic ++ '/' :: cmd).takeWhile
        (fun ch => ch != '\x00')).take 127)).1 = some g.publish_topic ∧
      (strtok_slash (strtok_slash (((g.publish_topic ++ '/' :: cmd).takeWhile
        (fun ch => ch != '\x00')).take 127)).2).1 = some cmd := by
    intro cmd hcl hcn hcs hcne
    have htw : (g.publish_topic ++ '/' :: cmd).takeWhile (fun ch => ch != '\x00') =
        g.publish_topic ++ '/' :: cmd := by
      rw [List.takeWhile_eq_self_iff]
      intro x hx
      rcases List.mem_append.mp hx with hx | hx
      · exact hnn x hx
      · rcases List.mem_cons.mp hx with rfl | hx
        · decide
        · exact hcn x hx
    have htk : (g.publish_topic ++ '/' :: cmd).take 127 = g.publish_topic ++ '/' :: cmd := by
      apply List.take_of_length_le
      simp only [List.length_append, List.length_cons]
      omega
    rw [htw, htk]
    have hsplit := takeWhile_append_stop (fun ch => ch != '/') g.publish_topic '/' cmd hall
      (by decide)
    obtain ⟨x, xs, hx⟩ := List.exists_cons_of_ne_nil hcne
    have hxs : (x != '/') = true := hcs x (by rw [hx]; exact List.mem_cons_self _ _)
    have hxs' : (x == '/') = false := by simpa using hxs
    have hcmd : (cmd.takeWhile fun ch => ch != '/') = cmd := by
      rw [List.takeWhile_eq_self_iff]; exact hcs
    have h1 : strtok_slash (g.publish_topic ++ '/' :: cmd) = (some g.publish_topic, cmd) := by
      have hd : (g.publish_topic ++ '/' :: cmd).dropWhile (fun ch => ch == '/') =
          g.publish_topic ++ '/' :: cmd := by
        rw [hcr]
        exact List.dropWhile_cons_of_neg (by simpa using hc)
      unfold strtok_slash
      rw [hd]
      have hshape : g.publish_topic ++ '/' :: cmd = c :: (r ++ '/' :: cmd) := by
        rw [hcr]; rfl
      rw [hshape]
      simp only
      rw [← hshape, hsplit.1, hsplit.2]
      rfl
    have h2 : (strtok_slash cmd).1 = some cmd := by
      unfold strtok_slash
      have hd : cmd.dropWhile (fun ch => ch == '/') = cmd := by
        rw [hx]; exact List.dropWhile_cons_of_neg (by simp [hxs'])
      rw [hd]
      rw [hx]
      simp only
      rw [← hx, hcmd]
    rw [h1]
    exact ⟨rfl, h2⟩
  have hon := key "On".toList (by decide) (by decide) (by decide) (by decide)
  have hoff := key "Off".toList (by decide) (by decide) (by decide) (by decide)
  have e1 : g.publish_topic ++ "/On".toList = g.publish_topic ++ '/' :: "On".toList := rfl
  have e2 : g.publish_topic ++ "/Off".toList = g.publish_topic ++ '/' :: "Off".toList := rfl
  constructor
  · simp only [mqtt_event_handler, e1, hon.1, hon.2, hp]
    simp
  · simp only [mqtt_event_handler, e2, hoff.1, hoff.2, hp]
    have : ¬ (some "Off".toList = some "On".toList) := by decide
    simp [this]

/-! ## Formatting a record into `payload` -/

theorem writeAt_nil_chars (b : List Char) (off : Nat) : writeAt b off [] = b := by
  cases b <;> simp [writeAt]

theorem writeAt_append_left (a b w : List Char) :
    writeAt (a ++ b) a.length w = a ++ writeAt b 0 w := by
  induction a with
  | nil => rfl
  | cons x a ih =>
    cases w with
    | nil => simp [writeAt_nil_chars]
    | cons c w =>
      show x :: writeAt (a ++ b) a.length (c :: w) = x :: (a ++ writeAt b 0 (c :: w))
      rw [ih]

theorem writeAt_zero (w : List Char) :
    ∀ b : List Char, w.length ≤ b.length → writeAt b 0 w = w ++ b.drop w.length := by
  induction w with
  | nil => intro b _; simp [writeAt_nil_chars]
  | cons c w ih =>
    intro b hb
    cases b with
    | nil => simp at hb
    | cons x b =>
      show c :: writeAt b 0 w = c :: (w ++ b.drop w.length)
      rw [ih b (by simpa using hb)]

theorem to_size_t_small (i : Int) (h0 : 0 ≤ i) (h1 : i < 4294967296) :
    to_size_t i = i.toNat := by
  unfold to_size_t SIZE_BITS
  rw [Int.emod_eq_of_lt h0 (by norm_num; exact h1)]

/-- One `snprintf` of a text that fits, its NUL included, behind `pre`. -/
theorem snprintf_fits (libc : Libc) (pre s : CStr)
    (h : pre.length + s.length < PAYLOAD_SIZE) :
    snprintf libc (pre ++ List.replicate (PAYLOAD_SIZE - pre.length) '\x00')
        (pre.length : Int) (PAYLOAD_SIZE - pre.length) s =
      ⟨pre ++ s ++ List.replicate (PAYLOAD_SIZE - (pre ++ s).length) '\x00', s.length, false⟩ := by
  have hP : PAYLOAD_SIZE = 1024 := rfl
  have hn0 : ¬ (PAYLOAD_SIZE - pre.length = 0) := by omega
  have hmax : decide (INT_MAX < PAYLOAD_SIZE - pre.length) = false := by
    apply decide_eq_false
    unfold INT_MAX
    omega
  have htake : s.take (PAYLOAD_SIZE - pre.length - 1) = s := List.take_of_length_le (by omega)
  have hoff : ¬ ((pre.length : Int) < 0) := by omega
  have hwrite : writeAt (pre ++ List.replicate (PAYLOAD_SIZE - pre.length) '\x00') pre.length
      (s ++ ['\x00']) =
      pre ++ s ++ List.replicate (PAYLOAD_SIZE - (pre ++ s).length) '\x00' := by
    rw [writeAt_append_left, writeAt_zero _ _ (by
      simp only [List.length_append, List.length_singleton, List.length_replicate]; omega)]
    have hrep : PAYLOAD_SIZE - pre.length - (s.length + 1) + 1 =
        PAYLOAD_SIZE - (pre ++ s).length := by
      simp only [List.length_append]; omega
    simp only [List.drop_replicate, List.length_append, List.length_singleton,
      List.append_assoc, List.singleton_append]
    rw [← List.length_append, ← hrep, List.replicate_succ]
  have hoob : decide ((pre ++ List.replicate (PAYLOAD_SIZE - pre.length) '\x00').length <
      pre.length + (s ++ ['\x00']).length) = false := by
    apply decide_eq_false
    simp only [List.length_append, List.length_singleton, List.length_replicate]
    omega
  unfold snprintf
  simp only [hn0, if_false, hmax, Bool.and_false, Bool.false_eq_true, htake, hoff,
    Int.toNat_ofNat, hwrite, hoob]

/-- Appending a piece that still fits, its NUL included. -/
theorem fmt_append_fits (libc : Libc) (pre s : CStr) (o : Bool)
    (h : pre.length + s.length < PAYLOAD_SIZE) :
    fmt_append libc (formatted pre o) s = formatted (pre ++ s) o := by
  have hP : PAYLOAD_SIZE = 1024 := rfl
  have hn : to_size_t ((PAYLOAD_SIZE : Int) - (pre.length : Int)) = PAYLOAD_SIZE - pre.length := by
    rw [to_size_t_small _ (by omega) (by omega)]
    omega
  unfold fmt_append formatted
  simp only [hn, snprintf_fits libc pre s h, Bool.or_false, List.length_append, Fmt.mk.injEq,
    true_and, and_true]
  push_cast
  ring

/-- The pieces of the loop, appended one after the other. -/
theorem fmt_append_values_fit (libc : Libc) (vs : List Int) :
    ∀ (pre : CStr) (o : Bool), pre.length + (csi_values_text vs).length < PAYLOAD_SIZE →
      vs.foldl (fun f v => fmt_append libc f (fmt_d v ++ [' '])) (formatted pre o) =
        formatted (pre ++ csi_values_text vs) o := by
  induction vs with
  | nil => intro pre o _; simp [csi_values_text]
  | cons v vs ih =>
    intro pre o h
    have hcons : csi_values_text (v :: vs) = (fmt_d v ++ [' ']) ++ csi_values_text vs := by
      simp [csi_values_text, List.flatMap_cons]
    rw [hcons] at h ⊢
    simp only [List.length_append] at h
    rw [List.foldl_cons, fmt_append_fits libc pre _ o (by simp only [List.length_append]; omega),
      ih (pre ++ (fmt_d v ++ [' '])) o (by simp only [List.length_append]; omega)]
    rw [List.append_assoc]

/-- The loop of `csi_task`, given fuel for every index left, visits
`buf[i]`, `buf[i+1]`, ... up to the last one, in that order. -/
theorem csi_values_loop_eq_foldl (libc : Libc) (buf : List Int) :
    ∀ (fuel i : Nat) (f : Fmt), buf.length ≤ i + fuel →
      csi_values_loop libc buf fuel i f =
        (buf.drop i).foldl (fun f v => fmt_append libc f (fmt_d v ++ [' '])) f := by
  intro fuel
  induction fuel with
  | zero =>
    intro i f h
    rw [List.drop_eq_nil_of_le (by omega)]
    rfl
  | succ fuel ih =>
    intro i f h
    unfold csi_values_loop
    by_cases hi : i < buf.length
    · rw [if_pos hi, ih (i + 1) _ (by omega)]
      have hd : buf.drop i = buf[i] :: buf.drop (i + 1) := List.drop_eq_getElem_cons hi
      have hg : buf.getD i 0 = buf[i] := by
        simp [List.getD_eq_getElem?_getD, List.getElem?_eq_getElem hi]
      rw [hd, List.foldl_cons, hg]
    · rw [if_neg hi, List.drop_eq_nil_of_le (by omega)]
      rfl

/-- The formatting pass when the whole record and its NUL fit in `payload`. -/
theorem csi_format_fits (libc : Libc) (c : CsiInfo) (number : Int) (clk : Clock)
    (h : (fmt_header c number (fmt_timestamp clk) ++ csi_values_text (c.buf.drop 4)).length
      < PAYLOAD_SIZE) :
    csi_format libc c number clk =
      formatted (fmt_header c number (fmt_timestamp clk) ++ csi_values_text (c.buf.drop 4))
        false := by
  rw [List.length_append] at h
  have hfirst : snprintf libc (List.replicate PAYLOAD_SIZE '\x00') 0 PAYLOAD_SIZE
      (fmt_header c number (fmt_timestamp clk)) =
      ⟨fmt_header c number (fmt_timestamp clk) ++
        List.replicate (PAYLOAD_SIZE - (fmt_header c number (fmt_timestamp clk)).length) '\x00',
       (fmt_header c number (fmt_timestamp clk)).length, false⟩ := by
    have h0 := snprintf_fits libc [] (fmt_header c number (fmt_timestamp clk))
      (by rw [List.length_nil]; omega)
    rw [List.nil_append, List.length_nil, Nat.sub_zero, Nat.cast_zero, List.nil_append] at h0
    exact h0
  show csi_values_loop libc c.buf c.len 4
    ⟨(snprintf libc (List.replicate PAYLOAD_SIZE '\x00') 0 PAYLOAD_SIZE
        (fmt_header c number (fmt_timestamp clk))).buf,
      (snprintf libc (List.replicate PAYLOAD_SIZE '\x00') 0 PAYLOAD_SIZE
        (fmt_header c number (fmt_timestamp clk))).ret,
      (snprintf libc (List.replicate PAYLOAD_SIZE '\x00') 0 PAYLOAD_SIZE
        (fmt_header c number (fmt_timestamp clk))).oob⟩ = _
  rw [hfirst]
  rw [csi_values_loop_eq_foldl libc c.buf c.len 4 _ (by unfold CsiInfo.len; omega)]
  exact fmt_append_values_fit libc _ _ false (by omega)

/-- One round with the broker connected and publishing enabled, when the
record and its NUL fit: exactly one publish call, of the header followed by the
values, and `payload` holds that text followed by NULs. -/
theorem csi_task_iter_fits (libc : Libc) (g : Globals) (clk : Clock)
    (hc : g.mqtt_connected = true) (hs : g.mqtt_status = true)
    (hfit : (csi_header g clk ++ csi_values g).length < PAYLOAD_SIZE) :
    (csi_task_iter libc g clk).published = g.published ++
      [⟨g.publish_topic,
        (csi_header g clk ++ csi_values g) ++
          List.replicate (PAYLOAD_SIZE - (csi_header g clk ++ csi_values g).length) '\x00',
        (csi_header g clk ++ csi_values g).length⟩] ∧
    (csi_task_iter libc g clk).payload_overrun = g.payload_overrun := by
  have hf := csi_format_fits libc g.latest_csi_info g.number clk hfit
  unfold csi_task_iter
  rw [hf]
  simp only [hc, hs, formatted, Bool.not_true, Bool.false_eq_true, if_false, if_true,
    Bool.or_false, csi_header, csi_values, and_self]

theorem Publish.record_fits (topic pre : CStr) (n : Nat) :
    Publish.record ⟨topic, pre ++ List.replicate n '\x00', pre.length⟩ = pre := by
  simp [Publish.record]

/-- C10, amended. For every sample in the shared slot whose complete record
together with the NUL that ends it fits in the 1024-byte `payload` (a record of
at most 1023 characters), the round of `csi_task` publishes exactly the header
followed by the signed-decimal rendering of `buf[4]`, ..., `buf[len-1]` in
index order, each followed by one space; that part is empty when `len ≤ 4`, and
whatever the first four bytes are, they do not appear in it. -/
theorem csi_task_values_from_offset_4 (libc : Libc) (g : Globals) (clk : Clock)
    (hc : g.mqtt_connected = true) (hs : g.mqtt_status = true)
    (hfit : (csi_header g clk ++ csi_values g).length < PAYLOAD_SIZE) :
    ∃ p : Publish, (csi_task_iter libc g clk).published = g.published ++ [p] ∧
      p.len = (csi_header g clk).length + (csi_values g).length ∧
      p.record.take (csi_header g clk).length = csi_header g clk ∧
      p.record.drop (csi_header g clk).length =
        csi_values_text (g.latest_csi_info.buf.drop 4) ∧
      (g.latest_csi_info.len ≤ 4 → p.record.drop (csi_header g clk).length = []) ∧
      (∀ a b c d rest, g.latest_csi_info.buf = a :: b :: c :: d :: rest →
        p.record.drop (csi_header g clk).length = csi_values_text rest) := by
  have h := csi_task_iter_fits libc g clk hc hs hfit
  refine ⟨_, h.1, ?_, ?_, ?_, ?_, ?_⟩
  · simp only [List.length_append]; push_cast; rfl
  · rw [Publish.record_fits, List.take_left]
  · rw [Publish.record_fits, List.drop_left]; rfl
  · intro hlen
    rw [Publish.record_fits, List.drop_left]
    unfold csi_values
    rw [List.drop_eq_nil_of_le hlen]
    rfl
  · intro a b c d rest hbuf
    rw [Publish.record_fits, List.drop_left]
    unfold csi_values
    rw [hbuf]
    rfl

set_option maxRecDepth 1000000

/-- A slot holding `1, 2, 3, 4, -5, 6, 127, -128`: the values part of the record
published is `-5 6 127 -128 `. -/
theorem csi_task_values_from_offset_4_witness :
    ∃ p : Publish,
      (csi_task_iter ⟨true⟩
        { connected_no_sample with
          latest_csi_info := ⟨zero_rx_ctrl, zero_mac, [1, 2, 3, 4, -5, 6, 127, -128]⟩ }
        clock_example).published = [p] ∧
      p.len = 230 ∧
      p.record.drop 216 = "-5 6 127 -128 ".toList := by
  obtain ⟨p, hp, hlen, -, hvals, -, -⟩ := csi_task_values_from_offset_4 ⟨true⟩
    { connected_no_sample with
      latest_csi_info := ⟨zero_rx_ctrl, zero_mac, [1, 2, 3, 4, -5, 6, 127, -128]⟩ }
    clock_example rfl rfl (by decide)
  refine ⟨p, hp, ?_, ?_⟩
  · rw [hlen]; decide
  · have hH : (csi_header
        { connected_no_sample with
          latest_csi_info := ⟨zero_rx_ctrl, zero_mac, [1, 2, 3, 4, -5, 6, 127, -128]⟩ }
        clock_example).length = 216 := by decide
    rw [hH] at hvals
    rw [hvals]
    decide

/-! ## The boundary: a record of exactly 1024 characters -/

/-- One `snprintf` of a text that reaches or passes the end of `payload`: the
characters that fit before the last byte are stored, then the NUL. -/
theorem snprintf_truncates (libc : Libc) (pre s : CStr)
    (h1 : pre.length < PAYLOAD_SIZE) (h2 : PAYLOAD_SIZE ≤ pre.length + s.length) :
    snprintf libc (pre ++ List.replicate (PAYLOAD_SIZE - pre.length) '\x00')
        (pre.length : Int) (PAYLOAD_SIZE - pre.length) s =
      ⟨pre ++ s.take (PAYLOAD_SIZE - pre.length - 1) ++ ['\x00'], s.length, false⟩ := by
  have hP : PAYLOAD_SIZE = 1024 := rfl
  have hn0 : ¬ (PAYLOAD_SIZE - pre.length = 0) := by omega
  have hmax : decide (INT_MAX < PAYLOAD_SIZE - pre.length) = false := by
    apply decide_eq_false
    unfold INT_MAX
    omega
  have hoff : ¬ ((pre.length : Int) < 0) := by omega
  have hwlen : (s.take (PAYLOAD_SIZE - pre.length - 1) ++ ['\x00']).length =
      PAYLOAD_SIZE - pre.length := by
    simp only [List.length_append, List.length_take, List.length_singleton]
    omega
  have hwrite : writeAt (pre ++ List.replicate (PAYLOAD_SIZE - pre.length) '\x00') pre.length
      (s.take (PAYLOAD_SIZE - pre.length - 1) ++ ['\x00']) =
      pre ++ s.take (PAYLOAD_SIZE - pre.length - 1) ++ ['\x00'] := by
    rw [writeAt_append_left, writeAt_zero _ _ (by rw [hwlen, List.length_replicate])]
    rw [hwlen, List.drop_replicate, Nat.sub_self]
    simp only [List.replicate_zero, List.append_nil, List.append_assoc]
  have hoob : decide ((pre ++ List.replicate (PAYLOAD_SIZE - pre.length) '\x00').length <
      pre.length + (s.take (PAYLOAD_SIZE - pre.length - 1) ++ ['\x00']).length) = false := by
    apply decide_eq_false
    rw [hwlen]
    simp only [List.length_append, List.length_replicate]
    omega
  unfold snprintf
  simp only [hn0, if_false, hmax, Bool.and_false, Bool.false_eq_true, hoff,
    Int.toNat_ofNat, hwrite, hoob]

/-- A record of exactly 1024 characters does not fit with its NUL: `len` is
1024, but the last of the 1024 bytes handed to the broker is the NUL, not the
space that ends the last value. -/
theorem csi_task_record_of_1024_chars (libc : Libc) (g : Globals) (clk : Clock)
    (vs : List Int) (v : Int)
    (hc : g.mqtt_connected = true) (hs : g.mqtt_status = true)
    (hbuf : g.latest_csi_info.buf.drop 4 = vs ++ [v])
    (hlen : (csi_header g clk ++ csi_values g).length = PAYLOAD_SIZE) :
    (csi_task_iter libc g clk).published = g.published ++
      [⟨g.publish_topic,
        (csi_header g clk ++ csi_values g).take (PAYLOAD_SIZE - 1) ++ ['\x00'],
        (PAYLOAD_SIZE : Int)⟩] := by
  have hP : PAYLOAD_SIZE = 1024 := rfl
  have hvals : csi_values g = csi_values_text vs ++ (fmt_d v ++ [' ']) := by
    unfold csi_values
    rw [hbuf]
    simp [csi_values_text, List.flatMap_append]
  rw [hvals, ← List.append_assoc, List.length_append] at hlen
  have hpiece : 0 < (fmt_d v ++ [' ']).length := by
    rw [List.length_append, List.length_singleton]; omega
  have hpre : (csi_header g clk ++ csi_values_text vs).length < PAYLOAD_SIZE := by omega
  have hfirst : snprintf libc (List.replicate PAYLOAD_SIZE '\x00') 0 PAYLOAD_SIZE
      (csi_header g clk) =
      ⟨csi_header g clk ++ List.replicate (PAYLOAD_SIZE - (csi_header g clk).length) '\x00',
       (csi_header g clk).length, false⟩ := by
    have h0 := snprintf_fits libc [] (csi_header g clk)
      (by rw [List.length_nil]; rw [List.length_append] at hpre; omega)
    rw [List.nil_append, List.length_nil, Nat.sub_zero, Nat.cast_zero, List.nil_append] at h0
    exact h0
  have hn : to_size_t ((PAYLOAD_SIZE : Int) -
      ((csi_header g clk ++ csi_values_text vs).length : Int)) =
      PAYLOAD_SIZE - (csi_header g clk ++ csi_values_text vs).length := by
    rw [to_size_t_small _ (by omega) (by omega)]
    omega
  have hlast : fmt_append libc (formatted (csi_header g clk ++ csi_values_text vs) false)
      (fmt_d v ++ [' ']) =
      ⟨(csi_header g clk ++ csi_values g).take (PAYLOAD_SIZE - 1) ++ ['\x00'],
        (PAYLOAD_SIZE : Int), false⟩ := by
    unfold fmt_append formatted
    simp only [hn, snprintf_truncates libc _ (fmt_d v ++ [' ']) hpre (by omega), Bool.or_false,
      Fmt.mk.injEq, and_true]
    constructor
    · have e : PAYLOAD_SIZE - (csi_header g clk ++ csi_values_text vs).length - 1 =
          PAYLOAD_SIZE - 1 - (csi_header g clk ++ csi_values_text vs).length := by omega
      have hr : ∀ s : CStr, List.take (PAYLOAD_SIZE - 1)
          (csi_header g clk ++ csi_values_text vs ++ s) =
          csi_header g clk ++ csi_values_text vs ++
            s.take (PAYLOAD_SIZE - 1 - (csi_header g clk ++ csi_values_text vs).length) := by
        intro s
        rw [List.take_append_eq_append_take, List.take_of_length_le (by omega)]
      rw [hvals, ← List.append_assoc (csi_header g clk), hr, e]
    · rw [← hlen]
      push_cast
      rfl
  have hfmt : csi_format libc g.latest_csi_info g.number clk =
      ⟨(csi_header g clk ++ csi_values g).take (PAYLOAD_SIZE - 1) ++ ['\x00'],
        (PAYLOAD_SIZE : Int), false⟩ := by
    show csi_values_loop libc g.latest_csi_info.buf g.latest_csi_info.len 4
      ⟨(snprintf libc (List.replicate PAYLOAD_SIZE '\x00') 0 PAYLOAD_SIZE
          (csi_header g clk)).buf,
        (snprintf libc (List.replicate PAYLOAD_SIZE '\x00') 0 PAYLOAD_SIZE
          (csi_header g clk)).ret,
        (snprintf libc (List.replicate PAYLOAD_SIZE '\x00') 0 PAYLOAD_SIZE
          (csi_header g clk)).oob⟩ = _
    rw [hfirst, csi_values_loop_eq_foldl libc _ _ 4 _ (by unfold CsiInfo.len; omega), hbuf,
      List.foldl_append]
    have hfold := fmt_append_values_fit libc vs (csi_header g clk) false
      (by rw [List.length_append] at hpre; exact hpre)
    unfold formatted at hfold
    rw [hfold, List.foldl_cons, List.foldl_nil]
    exact hlast
  unfold csi_task_iter
  rw [hfmt]
  simp only [hc, hs, Bool.not_true, Bool.false_eq_true, if_false, if_true]

/-- For a record of exactly 1024 characters the text published after the
header is not the rendering of the values: its last byte is the NUL. -/
theorem csi_task_record_of_1024_chars_differs (libc : Libc) (g : Globals) (clk : Clock)
    (vs : List Int) (v : Int)
    (hc : g.mqtt_connected = true) (hs : g.mqtt_status = true)
    (hbuf : g.latest_csi_info.buf.drop 4 = vs ++ [v])
    (hlen : (csi_header g clk ++ csi_values g).length = PAYLOAD_SIZE) :
    ∃ p : Publish, (csi_task_iter libc g clk).published = g.published ++ [p] ∧
      p.len = 1024 ∧ p.record.length = 1024 ∧ p.record.getLast? = some '\x00' ∧
      p.record.drop (csi_header g clk).length ≠
        csi_values_text (g.latest_csi_info.buf.drop 4) := by
  have hP : PAYLOAD_SIZE = 1024 := rfl
  have h := csi_task_record_of_1024_chars libc g clk vs v hc hs hbuf hlen
  have hvals : csi_values_text (g.latest_csi_info.buf.drop 4) =
      (csi_values_text vs ++ fmt_d v) ++ [' '] := by
    rw [hbuf]
    simp [csi_values_text, List.flatMap_append]
  have hvlen : 0 < (csi_values g).length := by
    unfold csi_values
    rw [hvals, List.length_append, List.length_singleton]
    omega
  have hH : (csi_header g clk).length < 1024 := by
    rw [List.length_append] at hlen
    omega
  have hl : ((csi_header g clk ++ csi_values g).take (PAYLOAD_SIZE - 1)).length = 1023 := by
    rw [List.length_take, hlen]
    decide
  have hrec : Publish.record ⟨g.publish_topic,
      (csi_header g clk ++ csi_values g).take (PAYLOAD_SIZE - 1) ++ ['\x00'],
      (PAYLOAD_SIZE : Int)⟩ =
      (csi_header g clk ++ csi_values g).take (PAYLOAD_SIZE - 1) ++ ['\x00'] := by
    have hle : ((csi_header g clk ++ csi_values g).take (PAYLOAD_SIZE - 1) ++
        ['\x00']).length ≤ (PAYLOAD_SIZE : Int).toNat := by
      rw [List.length_append, hl]
      decide
    unfold Publish.record
    exact List.take_of_length_le hle
  have hlast : ((csi_header g clk ++ csi_values g).take (PAYLOAD_SIZE - 1) ++
      ['\x00']).getLast? = some '\x00' := List.getLast?_concat _
  refine ⟨_, h, rfl, ?_, ?_, ?_⟩
  · rw [hrec, List.length_append, hl]
    rfl
  · rw [hrec, hlast]
  · rw [hrec]
    intro heq
    have h1 := congrArg List.getLast? heq
    have hnot : ¬ (((csi_header g clk ++ csi_values g).take (PAYLOAD_SIZE - 1) ++
        ['\x00']).length ≤ (csi_header g clk).length) := by
      rw [List.length_append, hl, List.length_singleton]
      omega
    rw [List.getLast?_drop, if_neg hnot, hlast, hvals, List.getLast?_concat] at h1
    exact absurd h1 (by decide)

/-- C10, as stated, fails: the record of the 206-byte sample `sample_1024` has
exactly 1024 characters, so it fits in the 1024-byte `payload`; `snprintf`
keeps the last byte for the NUL, `len = 1024` is passed to publish, and the
text published after the header ends in the NUL where the rendering of
`buf[4]`, ..., `buf[205]` ends in a space.  This is so with either
`snprintf`. -/
theorem csi_task_truncates_record_of_1024_chars :
    (csi_header { connected_no_sample with latest_csi_info := sample_1024 } clock_example ++
      csi_values { connected_no_sample with latest_csi_info := sample_1024 }).length = 1024 ∧
    (∃ p : Publish,
      (csi_task_iter ⟨true⟩ { connected_no_sample with latest_csi_info := sample_1024 }
        clock_example).published = [p] ∧
      p.len = 1024 ∧ p.record.length = 1024 ∧ p.record.getLast? = some '\x00' ∧
      p.record.drop (csi_header { connected_no_sample with latest_csi_info := sample_1024 }
        clock_example).length ≠ csi_values_text (sample_1024.buf.drop 4)) ∧
    (∃ p : Publish,
      (csi_task_iter ⟨false⟩ { connected_no_sample with latest_csi_info := sample_1024 }
        clock_example).published = [p] ∧
      p.len = 1024 ∧ p.record.length = 1024 ∧ p.record.getLast? = some '\x00' ∧
      p.record.drop (csi_header { connected_no_sample with latest_csi_info := sample_1024 }
        clock_example).length ≠ csi_values_text (sample_1024.buf.drop 4)) := by
  have hlen : (csi_header { connected_no_sample with latest_csi_info := sample_1024 }
      clock_example ++
      csi_values { connected_no_sample with latest_csi_info := sample_1024 }).length = 1024 := by
    decide!
  exact ⟨hlen,
    csi_task_record_of_1024_chars_differs ⟨true⟩
      { connected_no_sample with latest_csi_info := sample_1024 } clock_example
      (List.replicate 200 (-12) ++ [-1]) (-1) rfl rfl (by decide) hlen,
    csi_task_record_of_1024_chars_differs ⟨false⟩
      { connected_no_sample with latest_csi_info := sample_1024 } clock_example
      (List.replicate 200 (-12) ++ [-1]) (-1) rfl rfl (by decide) hlen⟩

/-! ## The empty slot -/

/-- C6, as stated, fails: with the slot still zero, the broker connected and
publishing enabled, one round of `csi_task` formats a record from the slot and
publishes it. -/
theorem csi_task_publishes_from_empty_slot :
    connected_no_sample.latest_csi_info = empty_csi_info ∧
    (csi_task_iter ⟨true⟩ connected_no_sample clock_example).published.map Publish.record =
      [("CSI data: mac=00:00:00:00:00:00, number=0, rssi=0, channel=0, rate=0, sig_mode=0, " ++
        "mcs=0, bandwidth=0, smoothing=0, not_sounding=0, aggregation=0, stbc=0, " ++
        "fec_coding=0, sgi=0, leng=0, time=261030123456789\nCSI values: ").toList] := by
  constructor
  · rfl
  · decide

/-- C6, amended. While the slot is still zero, a round of `csi_task` with the
broker connected and publishing enabled does format and publish a record: the
header rendered from the zeroed slot (address `00:00:00:00:00:00`, `leng=0`)
with no value after `CSI values: `.  With the broker disconnected the same
state formats and publishes nothing. -/
theorem csi_task_empty_slot_header_only (libc : Libc) (g : Globals) (clk : Clock)
    (hslot : g.latest_csi_info = empty_csi_info)
    (hc : g.mqtt_connected = true) (hs : g.mqtt_status = true)
    (hfit : (fmt_header empty_csi_info g.number (fmt_timestamp clk)).length < PAYLOAD_SIZE) :
    (∃ p : Publish, (csi_task_iter libc g clk).published = g.published ++ [p] ∧
      p.topic = g.publish_topic ∧
      p.record = fmt_header empty_csi_info g.number (fmt_timestamp clk) ∧
      p.len = (fmt_header empty_csi_info g.number (fmt_timestamp clk)).length) ∧
    (csi_task_iter libc { g with mqtt_connected := false } clk).published = g.published ∧
    (csi_task_iter libc { g with mqtt_connected := false } clk).payload = g.payload := by
  have hv : csi_values g = [] := by
    unfold csi_values
    rw [hslot]
    rfl
  have hh : csi_header g clk = fmt_header empty_csi_info g.number (fmt_timestamp clk) := by
    unfold csi_header
    rw [hslot]
  have h := csi_task_iter_fits libc g clk hc hs (by rw [hv, List.append_nil, hh]; exact hfit)
  rw [hv, List.append_nil, hh] at h
  refine ⟨⟨_, h.1, rfl, Publish.record_fits _ _ _, rfl⟩, ?_, ?_⟩
  · rw [csi_task_iter_disconnected libc _ clk rfl]
  · rw [csi_task_iter_disconnected libc _ clk rfl]

/-- The agent right after start-up, no frame captured yet. -/
theorem csi_task_empty_slot_header_only_witness :
    ∃ p : Publish,
      (csi_task_iter ⟨true⟩ connected_no_sample clock_example).published = [p] ∧
      p.topic = "ALLCLEAR/TEST".toList ∧ p.len = 216 := by
  obtain ⟨⟨p, hp, ht, -, hl⟩, -, -⟩ := csi_task_empty_slot_header_only ⟨true⟩
    connected_no_sample clock_example rfl rfl rfl (by decide)
  refine ⟨p, hp, ht, ?_⟩
  rw [hl]
  decide

/-! ## Records longer than `payload` -/

theorem writeAt_length (w : List Char) :
    ∀ (mem : List Char) (off : Nat), (writeAt mem off w).length = mem.length := by
  induction w with
  | nil => intro mem off; rw [writeAt_nil_chars]
  | cons c w ih =>
    intro mem
    induction mem with
    | nil => intro off; rfl
    | cons x mem ihm =>
      intro off
      cases off with
      | zero =>
        show (c :: writeAt mem 0 w).length = _
        simp [ih mem 0]
      | succ off =>
        show (x :: writeAt mem off (c :: w)).length = _
        simp [ihm off]

/-- What one append does to `len` and to the overrun mark depends on the buffer
only through its size. -/
theorem fmt_append_len_step (libc : Libc) (f : Fmt) (s : CStr)
    (hsize : f.payload.length = PAYLOAD_SIZE) :
    (fmt_append libc f s).payload.length = PAYLOAD_SIZE ∧
    ((fmt_append libc f s).len, (fmt_append libc f s).overrun) =
      len_step libc (f.len, f.overrun) s.length := by
  unfold fmt_append snprintf len_step
  by_cases hn : to_size_t ((PAYLOAD_SIZE : Int) - f.len) = 0
  · simp only [hn, if_true, Bool.or_false, hsize, and_self]
  · by_cases he : (libc.eoverflow && decide (INT_MAX < to_size_t ((PAYLOAD_SIZE : Int) - f.len)))
        = true
    · simp only [hn, if_false, he, if_true, Bool.or_false, hsize, and_self]
    · rw [Bool.not_eq_true] at he
      by_cases ho : f.len < 0
      · simp only [hn, if_false, he, Bool.false_eq_true, ho, if_true, Bool.or_true, hsize,
          and_self]
      · simp only [hn, if_false, he, Bool.false_eq_true, ho, writeAt_length, hsize,
          List.length_append, List.length_take, List.length_singleton, true_and]

theorem foldl_fmt_append_len_step (libc : Libc) (vs : List Int) :
    ∀ f : Fmt, f.payload.length = PAYLOAD_SIZE →
      ((vs.foldl (fun f v => fmt_append libc f (fmt_d v ++ [' '])) f).len,
       (vs.foldl (fun f v => fmt_append libc f (fmt_d v ++ [' '])) f).overrun) =
        (piece_lengths vs).foldl (len_step libc) (f.len, f.overrun) := by
  induction vs with
  | nil => intro f _; rfl
  | cons v vs ih =>
    intro f hsize
    have h := fmt_append_len_step libc f (fmt_d v ++ [' ']) hsize
    rw [List.foldl_cons, ih _ h.1, h.2]
    rfl

/-- The running `len` and the overrun mark at the end of a formatting pass,
computed without the buffer. -/
theorem csi_format_len_step (libc : Libc) (c : CsiInfo) (number : Int) (clk : Clock) :
    ((csi_format libc c number clk).len, (csi_format libc c number clk).overrun) =
      (piece_lengths (c.buf.drop 4)).foldl (len_step libc)
        (len_step libc (0, false) (fmt_header c number (fmt_timestamp clk)).length) := by
  have h := fmt_append_len_step libc (formatted [] false)
    (fmt_header c number (fmt_timestamp clk))
    (by unfold formatted
        rw [List.nil_append, List.length_nil, Nat.sub_zero, List.length_replicate])
  have hfirst : csi_format libc c number clk =
      (c.buf.drop 4).foldl (fun f v => fmt_append libc f (fmt_d v ++ [' ']))
        (fmt_append libc (formatted [] false) (fmt_header c number (fmt_timestamp clk))) := by
    rw [← csi_values_loop_eq_foldl libc c.buf c.len 4 _ (by unfold CsiInfo.len; omega)]
    unfold csi_format fmt_append formatted
    have e1 : to_size_t ((PAYLOAD_SIZE : Int) - 0) = PAYLOAD_SIZE := by decide
    simp only [List.nil_append, List.length_nil, Nat.sub_zero, Nat.cast_zero, e1, Int.zero_add,
      Bool.false_or]
  rw [hfirst, foldl_fmt_append_len_step libc _ _ h.1, h.2]
  rfl

/-- What a round with the broker connected and publishing enabled passes to
publish as `len`, and the overrun mark after it. -/
theorem csi_task_iter_len (libc : Libc) (g : Globals) (clk : Clock)
    (hc : g.mqtt_connected = true) (hs : g.mqtt_status = true) :
    (csi_task_iter libc g clk).published.map (fun p => p.len) =
      g.published.map (fun p => p.len) ++ [(csi_format libc g.latest_csi_info g.number clk).len] ∧
    (csi_task_iter libc g clk).payload_overrun =
      (g.payload_overrun || (csi_format libc g.latest_csi_info g.number clk).overrun) := by
  unfold csi_task_iter
  simp only [hc, hs, Bool.not_true, Bool.false_eq_true, if_false, if_true, List.map_append,
    List.map_cons, List.map_nil, and_self]

/-- With an ISO C `snprintf` the running `len` is always the length of the
untruncated record, however long that is. -/
theorem csi_format_len_iso (c : CsiInfo) (number : Int) (clk : Clock) :
    (csi_format ⟨false⟩ c number clk).len =
      (fmt_header c number (fmt_timestamp clk) ++ csi_values_text (c.buf.drop 4)).length := by
  have hstep : ∀ (st : Int × Bool) (n : Nat), (len_step ⟨false⟩ st n).1 = st.1 + n := by
    intro st n
    unfold len_step
    split_ifs <;> first | rfl | simp_all
  have hfold : ∀ (vs : List Int) (st : Int × Bool),
      ((piece_lengths vs).foldl (len_step ⟨false⟩) st).1 =
        st.1 + (csi_values_text vs).length := by
    intro vs
    induction vs with
    | nil => intro st; simp [piece_lengths, csi_values_text]
    | cons v vs ih =>
      intro st
      have hcons : csi_values_text (v :: vs) = (fmt_d v ++ [' ']) ++ csi_values_text vs := by
        simp [csi_values_text, List.flatMap_cons]
      rw [hcons]
      simp only [piece_lengths, List.map_cons, List.foldl_cons] at ih ⊢
      rw [ih, hstep]
      simp only [List.length_append]
      push_cast
      ring
  have h := congrArg Prod.fst (csi_format_len_step ⟨false⟩ c number clk)
  simp only at h
  rw [h, hfold, hstep, List.length_append]
  push_cast
  ring

/-- C2 at a failing input: a 384-byte sample of values -12 in the slot.  The
untruncated record has 1738 characters.  With an ISO C `snprintf` the loop goes
on with `sizeof(payload) - len` wrapped around, characters are stored outside
`payload` and `len = 1738` is passed to publish; with a library that refuses
sizes above `INT_MAX` nothing is stored outside, but `len = 1028` is still
passed to publish for the 1024-byte buffer. -/
theorem csi_task_len_exceeds_payload :
    (csi_task_iter ⟨false⟩ { connected_no_sample with latest_csi_info := sample_384 }
      clock_example).published.map (fun p => p.len) = [1738] ∧
    (csi_task_iter ⟨false⟩ { connected_no_sample with latest_csi_info := sample_384 }
      clock_example).payload_overrun = true ∧
    (csi_task_iter ⟨true⟩ { connected_no_sample with latest_csi_info := sample_384 }
      clock_example).published.map (fun p => p.len) = [1028] := by
  have hiso := csi_task_iter_len ⟨false⟩
    { connected_no_sample with latest_csi_info := sample_384 } clock_example rfl rfl
  have hposix := csi_task_iter_len ⟨true⟩
    { connected_no_sample with latest_csi_info := sample_384 } clock_example rfl rfl
  have e1 := csi_format_len_step ⟨false⟩ sample_384 0 clock_example
  have e2 := csi_format_len_step ⟨true⟩ sample_384 0 clock_example
  have v1 : (piece_lengths (sample_384.buf.drop 4)).foldl (len_step ⟨false⟩)
      (len_step ⟨false⟩ (0, false) (fmt_header sample_384 0 (fmt_timestamp clock_example)).length)
      = (1738, true) := by decide!
  have v2 : (piece_lengths (sample_384.buf.drop 4)).foldl (len_step ⟨true⟩)
      (len_step ⟨true⟩ (0, false) (fmt_header sample_384 0 (fmt_timestamp clock_example)).length)
      = (1028, false) := by decide!
  rw [v1] at e1
  rw [v2] at e2
  have e1a := congrArg Prod.fst e1
  have e1b := congrArg Prod.snd e1
  have e2a := congrArg Prod.fst e2
  simp only at e1a e1b e2a
  refine ⟨?_, ?_, ?_⟩
  · rw [hiso.1]
    show [] ++ [(csi_format ⟨false⟩ sample_384 0 clock_example).len] = _
    rw [e1a]; rfl
  · rw [hiso.2]
    show (false || (csi_format ⟨false⟩ sample_384 0 clock_example).overrun) = true
    rw [e1b]; rfl
  · rw [hposix.1]
    show [] ++ [(csi_format ⟨true⟩ sample_384 0 clock_example).len] = _
    rw [e2a]; rfl

end WifiPresence
